import Mathlib

/-!
Verification development for the XML-Parser repository.

This file gives a shallow embedding, in Lean 4, of the parsing and
validation routines of the C++ source (src/utils.cpp, src/parser.cpp,
src/validate.cpp) that the verified claims are about, together with the
theorems settling those claims.

Modelling conventions:
* the C++ type `Char` is `int`; it is modelled as `Int`;
* the C++ class `String` (a `std::vector<Char>`) is modelled as `List Int`
  (named `XString`);
* raw input bytes are modelled as `Nat` values below 256;
* `std::map` / `std::set` values are modelled as association lists /
  lists ordered the way the C++ container iterates them;
* every throwing routine is modelled in the `Except Err` monad, with one
  `Err` constructor per distinct C++ failure site that matters here.
-/

namespace xml

abbrev XString := List Int

/-- Error outcomes of the embedded routines (each corresponds to a C++
`XmlError` throw site, except `out_of_range`, which corresponds to a C++
`std::out_of_range` exception escaping from `String::at`, and
`length_error`, which corresponds to a `std::length_error` thrown by
`String::reserve` - neither is caught by the parser's handlers, which
only catch `XmlError` and `std::out_of_range`). -/
inductive Err where
  | invalid_utf8
  | incomplete_utf8
  | unexpected_eof
  | invalid_character
  | char_ref_no_digit
  | invalid_hex_digit
  | invalid_dec_digit
  | char_ref_unterminated
  | out_of_range
  | builtin_entity_mismatch
  | xml_space_not_enum
  | standalone_external_default
  | undeclared_entity
  | unparsed_entity_reference
  | external_entity_standalone
  | recursive_entity
  | external_entity_in_attribute
  | entity_reference_disallowed
  | character_reference_disallowed
  | invalid_attribute_character
  | repeated_id_value
  | attlist_missing
  | required_attribute_missing
  | fixed_attribute_mismatch
  | attribute_value_error
  | undeclared_attributes
  | length_error
  deriving DecidableEq

/-! ### Character constants and whitespace (utils.h) -/

def SPACE : Int := 32
def CARRIAGE_RETURN : Int := 13
def LINE_FEED : Int := 10
def AMPERSAND : Int := 38
def OCTOTHORPE : Int := 35
def SEMI_COLON : Int := 59
def LEFT_ANGLE_BRACKET : Int := 60

/-- `WHITESPACE` from utils.h: SPACE, TAB, CR, LF. -/
def WHITESPACE : XString := [32, 9, 13, 10]

/-- `is_whitespace` from utils.cpp (membership in `WHITESPACE`). -/
def is_whitespace (c : Int) : Bool := WHITESPACE.contains c

/-! ### Character ranges (utils.h / utils.cpp)

The C++ code stores each character class as a `std::set` of
`(low, high)` pairs ordered by the `high` component, and
`in_any_character_range` looks up the first range whose `high` is not
below the character (`lower_bound`) and then tests bounds.  The sets are
modelled as lists sorted by the `high` component in the order the
`std::set` holds them, and `lower_bound` as `List.find?`. -/

def in_any_character_range (c : Int) (ranges : List (Int × Int)) : Bool :=
  match ranges.find? (fun r => c ≤ r.2) with
  | some r => decide (c ≥ r.1) && decide (c ≤ r.2)
  | none => false

/-- `CHARACTER_RANGES` from utils.h (XML `Char` production). -/
def CHARACTER_RANGES : List (Int × Int) :=
  [(0x09, 0x0A), (0x0D, 0x0D), (0x20, 0xD7FF), (0xE000, 0xFFFD), (0x10000, 0x10FFFF)]

/-- `NAME_START_CHARACTER_RANGES` from utils.h. -/
def NAME_START_CHARACTER_RANGES : List (Int × Int) :=
  [(58, 58), (65, 90), (95, 95), (97, 122), (0xC0, 0xD6), (0xD8, 0xF6), (0xF8, 0x2FF),
   (0x370, 0x37D), (0x37F, 0x1FFF), (0x200C, 0x200D), (0x2070, 0x218F), (0x2C00, 0x2FEF),
   (0x3001, 0xD7FF), (0xF900, 0xFDCF), (0xFDF0, 0xFFFD), (0x10000, 0xEFFFF)]

/-- `NAME_CHARACTER_RANGES` from utils.h: the start ranges merged with the
additional ranges, written out in the order the `std::set` (sorted by the
`high` component) holds them. -/
def NAME_CHARACTER_RANGES : List (Int × Int) :=
  [(45, 46), (48, 57), (58, 58), (65, 90), (95, 95), (97, 122), (0xB7, 0xB7),
   (0xC0, 0xD6), (0xD8, 0xF6), (0xF8, 0x2FF), (0x300, 0x36F), (0x370, 0x37D),
   (0x37F, 0x1FFF), (0x200C, 0x200D), (0x203F, 0x2040), (0x2070, 0x218F),
   (0x2C00, 0x2FEF), (0x3001, 0xD7FF), (0xF900, 0xFDCF), (0xFDF0, 0xFFFD),
   (0x10000, 0xEFFFF)]

/-- `valid_character` from utils.cpp. -/
def valid_character (c : Int) : Bool := in_any_character_range c CHARACTER_RANGES

/-- `valid_name_start_character` from utils.cpp. -/
def valid_name_start_character (c : Int) : Bool :=
  in_any_character_range c NAME_START_CHARACTER_RANGES

/-- `valid_name_character` from utils.cpp. -/
def valid_name_character (c : Int) : Bool :=
  in_any_character_range c NAME_CHARACTER_RANGES

/-- `std::tolower` as applied to the `Char` values the code feeds it
(ASCII letters are lowered, everything else is returned unchanged). -/
def cpp_tolower (c : Int) : Int := if 65 ≤ c ∧ c ≤ 90 then c + 32 else c

/-- `std::isdigit` on `Char` values (C locale). -/
def cpp_isdigit (c : Int) : Bool := decide (48 ≤ c) && decide (c ≤ 57)

/-- `std::isxdigit` on `Char` values (C locale). -/
def cpp_isxdigit (c : Int) : Bool :=
  cpp_isdigit c || (decide (97 ≤ c) && decide (c ≤ 102)) ||
    (decide (65 ≤ c) && decide (c ≤ 70))

/-! ### UTF-8 decoding (`parse_utf8`, utils.cpp lines 67-99)

The C++ routine reads bytes from an `std::istream`; here it consumes a
`List Nat` of byte values (each below 256) and returns the decoded code
point together with the unread rest of the byte list.  In the C++ code
`istream.get()` at end of input returns `EOF` (-1), whose `char` value
compares equal to the byte 0xFF; both situations are reproduced below. -/

/-- The `while (current_char & mask)` loop of `parse_utf8`: counts how
many further leading 1 bits follow the topmost bit.  The C++ mask starts
at 0b01000000 and is halved each step; it is represented here as
`2 ^ k` with `k` counting down from 6, so that the recursion is
structural (once the mask reaches 1 the next halving makes it 0, which
ends the loop). -/
def utf8_extra_ones (b : Nat) : Nat → Nat
  | 0 => if b &&& 1 ≠ 0 then 1 else 0
  | k + 1 => if b &&& (2 ^ (k + 1)) ≠ 0 then 1 + utf8_extra_ones b k else 0

/-- The continuation-byte loop of `parse_utf8` (`for offset` loop).
Note: the C++ test `(byte & 0b01000000) == 1` compares against the value
1, which a masked value of 0 or 0x40 never equals; it is transcribed
verbatim.  A continuation byte of 0xFF compares equal to `EOF` in the
C++ `byte == EOF` test, hence the explicit 0xFF case. -/
def parse_utf8_continuations (bytes : List Nat) (n : Nat) (char_value : Int) :
    Except Err (Int × List Nat) :=
  match n with
  | 0 => .ok (char_value, bytes)
  | m + 1 =>
    match bytes with
    | [] => .error .incomplete_utf8
    | byte :: rest =>
      if byte = 0xFF then .error .incomplete_utf8
      else if byte &&& 0x80 = 0 || byte &&& 0x40 = 1 then .error .invalid_utf8
      else parse_utf8_continuations rest m (char_value * 64 + ((byte &&& 0x3F : Nat) : Int))

/-- `parse_utf8` from utils.cpp.  An empty byte list corresponds to
reading `EOF` (-1) as the first byte, which the C++ code treats as a
byte with eight leading 1 bits and rejects as invalid UTF-8. -/
def parse_utf8 (bytes : List Nat) : Except Err (Int × List Nat) :=
  match bytes with
  | [] => .error .invalid_utf8
  | b :: rest =>
    if b &&& 0x80 = 0 then .ok ((b : Int), rest)
    else
      let sig_1s := 1 + utf8_extra_ones b 6
      if sig_1s < 2 ∨ sig_1s > 4 then .error .invalid_utf8
      else parse_utf8_continuations rest (sig_1s - 1) ((b &&& (0xFF >>> sig_1s) : Nat) : Int)

/-! ### Character reference decoding (`parse_character_reference`, utils.cpp lines 243-282)

The C++ routine receives the reference text after `&#`, up to and
including the terminating semicolon, and walks an index over it.  The
index walk is modelled by consuming the list.  An empty list in the
digit loop means the C++ index ran past the end of the string (an
unchecked `operator[]` access); the parser-side collector always
supplies a semicolon-terminated string, so that case is unreachable
from the parser and is mapped to `Err.out_of_range`. -/

/-- The digit-accumulation loop of `parse_character_reference`.  After
each accumulated digit the value is checked against 0x10FFFF
(`UTF8_BYTE_LIMITS[3]`), the overflow guard. -/
def char_ref_digits (is_hex : Bool) (value : Int) : XString → Except Err Int
  | [] => .error .out_of_range
  | c0 :: rest =>
    let c := cpp_tolower c0
    if c = SEMI_COLON then .ok value
    else if is_hex then
      if ¬ cpp_isxdigit c then .error .invalid_hex_digit
      else
        let digit_value := if c ≥ 97 then c - 97 + 10 else c - 48
        let value2 := value * 16 + digit_value
        if value2 > 0x10FFFF then .error .invalid_character
        else char_ref_digits is_hex value2 rest
    else
      if ¬ cpp_isdigit c then .error .invalid_dec_digit
      else
        let value2 := value * 10 + (c - 48)
        if value2 > 0x10FFFF then .error .invalid_character
        else char_ref_digits is_hex value2 rest

/-- `xml::parse_character_reference` from utils.cpp.  A leading `x`
(code 120) selects hexadecimal; the first digit position is then peeked
(`string[++i]`) for the empty-reference check before the digit loop
starts over the remaining characters. -/
def parse_character_reference (s : XString) : Except Err Int :=
  match s with
  | [] => .error .out_of_range
  | c0 :: rest =>
    let is_hex : Bool := decide (c0 = 120)
    let first_digit := if is_hex then rest.getD 0 0 else c0
    if first_digit = SEMI_COLON then .error .char_ref_no_digit
    else
      match char_ref_digits is_hex 0 (if is_hex then rest else c0 :: rest) with
      | .error e => .error e
      | .ok char_value =>
        if ¬ valid_character char_value then .error .invalid_character
        else .ok char_value

/-- `Parser::parse_character_reference` (parser.cpp lines 501-520),
character-collection part: reads characters of the input stream (already
positioned after `&#`) up to and including the semicolon; a space before
the semicolon is an unterminated reference, and end of input is a
premature EOF. -/
def parser_collect_character_reference (input : XString) :
    Except Err (XString × XString) :=
  match input with
  | [] => .error .unexpected_eof
  | c :: rest =>
    if c = SEMI_COLON then .ok ([SEMI_COLON], rest)
    else if c = SPACE then .error .char_ref_unterminated
    else
      match parser_collect_character_reference rest with
      | .error e => .error e
      | .ok (s, rest2) => .ok (c :: s, rest2)

/-- `Parser::parse_character_reference` (parser.cpp lines 501-520):
collect the reference text, then decode it with
`xml::parse_character_reference`.  Returns the decoded code point and
the unread rest of the input. -/
def parser_parse_character_reference (input : XString) :
    Except Err (Int × XString) :=
  match parser_collect_character_reference input with
  | .error e => .error e
  | .ok (s, rest) =>
    match parse_character_reference s with
    | .error e => .error e
    | .ok v => .ok (v, rest)

/-! ### Character-reference expansion (`expand_character_references`, utils.cpp lines 284-304) -/

/-- The inner `while (true)` loop of `expand_character_references`:
collects characters up to and including a semicolon.  Running past the
end corresponds to the C++ `string.at(i++)` throwing
`std::out_of_range`. -/
def collect_char_ref : XString → Except Err (XString × XString)
  | [] => .error .out_of_range
  | c :: rest =>
    if c = SEMI_COLON then .ok ([SEMI_COLON], rest)
    else
      match collect_char_ref rest with
      | .error e => .error e
      | .ok (s, rest2) => .ok (c :: s, rest2)

/-- `expand_character_references` from utils.cpp: replaces each
`&#...;` sequence by the decoded code point and leaves every other
character alone.  A trailing lone `&` makes the C++ `string.at(i+1)`
peek throw `std::out_of_range`. -/
def expand_character_references (s : XString) : Except Err XString :=
  match s with
  | [] => .ok []
  | c :: rest =>
    if c = AMPERSAND then
      match rest with
      | [] => .error .out_of_range
      | d :: rest2 =>
        if d = OCTOTHORPE then
          match h : collect_char_ref rest2 with
          | .error e => .error e
          | .ok (char_ref, rest3) =>
            match parse_character_reference char_ref with
            | .error e => .error e
            | .ok v =>
              match expand_character_references rest3 with
              | .error e => .error e
              | .ok tail => .ok (v :: tail)
        else
          match expand_character_references (d :: rest2) with
          | .error e => .error e
          | .ok tail => .ok (AMPERSAND :: tail)
    else
      match expand_character_references rest with
      | .error e => .error e
      | .ok tail => .ok (c :: tail)
  termination_by s.length
  decreasing_by
  · have key : ∀ u : XString, ∀ r t, collect_char_ref u = .ok (r, t) →
        t.length < u.length := by
      intro u
      induction u with
      | nil => intro r t hrt; simp [collect_char_ref] at hrt
      | cons a as ih =>
        intro r t hrt
        by_cases ha : a = SEMI_COLON
        · simp [collect_char_ref, ha] at hrt
          simp [hrt.2.symm]
        · simp only [collect_char_ref, if_neg ha] at hrt
          rcases h2 : collect_char_ref as with e | p
          · rw [h2] at hrt; simp at hrt
          · rw [h2] at hrt
            simp at hrt
            have := ih p.1 p.2 (by rw [h2])
            simp [← hrt.2]
            omega
    have := key rest2 char_ref rest3 h
    simp
    omega
  · simp
  · simp

/-! ### Built-in general entities (utils.h, parser.cpp lines 1719-1738) -/

/-- Association-list lookup, standing for `std::map::count` /
`std::map::at` pairs in the C++ code (the map holds at most one entry
per key, so first-match lookup is map lookup). -/
def lookup {α : Type} : List (XString × α) → XString → Option α
  | [], _ => none
  | (k1, v) :: rest, k => if k1 = k then some v else lookup rest k

/-- `BUILT_IN_GENERAL_ENTITIES` from utils.h, in `std::map` (name-sorted)
order: amp `&#38;`, apos `&#39;`, gt `&#62;`, lt `&#60;`, quot `&#34;`.
Only the entity value matters here. -/
def BUILT_IN_GENERAL_ENTITIES : List (XString × XString) :=
  [([97, 109, 112], [38, 35, 51, 56, 59]),
   ([97, 112, 111, 115], [38, 35, 51, 57, 59]),
   ([103, 116], [38, 35, 54, 50, 59]),
   ([108, 116], [38, 35, 54, 48, 59]),
   ([113, 117, 111, 116], [38, 35, 51, 52, 59])]

/-- `BUILT_IN_GENERAL_ENTITIES_MANDATORY_DOUBLE_ESCAPE` from utils.h
(`std::set`, name-sorted): amp, lt. -/
def BUILT_IN_GENERAL_ENTITIES_MANDATORY_DOUBLE_ESCAPE : List XString :=
  [[97, 109, 112], [108, 116]]

/-- The built-in redeclaration check of
`Parser::parse_general_entity_declaration` (parser.cpp lines 1719-1738),
applied when the declared entity name is one of the five built-ins:
compute the expansion of the built-in value and of the declared value
(an expansion error propagates), then compare.  For `lt` and `amp`
(mandatory double escape) a declared value that already equals the
literal character, or whose expansion differs from it, is rejected; for
the others the declared value must equal the expected text either
directly or after expansion. -/
def check_builtin_general_entity_declaration (name value : XString) :
    Except Err Unit :=
  match lookup BUILT_IN_GENERAL_ENTITIES name with
  | none => .ok ()
  | some builtin_value =>
    match expand_character_references builtin_value with
    | .error e => .error e
    | .ok expected =>
      match expand_character_references value with
      | .error e => .error e
      | .ok expansion =>
        if BUILT_IN_GENERAL_ENTITIES_MANDATORY_DOUBLE_ESCAPE.contains name then
          if value = expected ∨ expansion ≠ expected then
            .error .builtin_entity_mismatch
          else .ok ()
        else
          if value ≠ expected ∧ expansion ≠ expected then
            .error .builtin_entity_mismatch
          else .ok ()

/-! ### Entity streams (`EntityStream`, parser.cpp lines 7-105)

An internal entity stream owns the replacement text and a cursor; an
external one reads decoded characters through a nested parser.  In both
cases the underlying character sequence is a list, modelled here by
`text` with cursor `pos`.  The two padding flags implement the
parameter-entity space padding of `get` / `operator++` / `eof`
(parser.cpp lines 58-105). -/

structure EntityStream where
  text : XString
  pos : Nat := 0
  is_parameter : Bool := false
  in_entity_value : Bool := false
  leading_parameter_space_done : Bool := false
  trailing_parameter_space_done : Bool := false

/-- `EntityStream::get` (parser.cpp lines 58-78).  The
`text.getD pos 0` read stands for `text.at(pos)`, whose exception the
C++ code converts into an EOF error; callers only invoke `get` when
`eof` is false, so the default is never produced. -/
def EntityStream.get (s : EntityStream) : Int :=
  if s.is_parameter ∧ ¬ s.in_entity_value ∧
      (¬ s.leading_parameter_space_done ∨
        (¬ s.trailing_parameter_space_done ∧ s.text.length ≤ s.pos)) then
    SPACE
  else s.text.getD s.pos 0

/-- `EntityStream::operator++` (parser.cpp lines 80-98). -/
def EntityStream.inc (s : EntityStream) : EntityStream :=
  if s.is_parameter ∧ ¬ s.in_entity_value ∧ ¬ s.leading_parameter_space_done then
    { s with leading_parameter_space_done := true }
  else if s.is_parameter ∧ ¬ s.in_entity_value ∧
      ¬ s.trailing_parameter_space_done ∧ s.text.length ≤ s.pos then
    { s with trailing_parameter_space_done := true }
  else { s with pos := s.pos + 1 }

/-- `EntityStream::eof` (parser.cpp lines 100-105). -/
def EntityStream.eof (s : EntityStream) : Bool :=
  if s.is_parameter ∧ ¬ s.in_entity_value then s.trailing_parameter_space_done
  else decide (s.text.length ≤ s.pos)

/-- The character sequence a stream delivers to the parser: repeatedly
`get` the current character and `operator++` past it until `eof`. -/
def EntityStream.run (s : EntityStream) : XString :=
  if s.eof then [] else s.get :: (s.inc).run
  termination_by
    (if s.leading_parameter_space_done then 0 else 1) + (s.text.length - s.pos) +
      (if s.trailing_parameter_space_done then 0 else 1)
  decreasing_by
    simp only [EntityStream.eof, EntityStream.inc] at *
    split_ifs at * <;> simp_all <;> omega

/-! ### Attribute-value literals (`Parser::parse_attribute_value`, parser.cpp lines 388-455)

The character-gathering loop of `parse_attribute_value` reads through
`Parser::get(general_entities, true)`, which expands character and
general-entity references.  That reference machinery is abstracted into
an event stream: each event carries the delivered character, the
`just_parsed_character_reference` flag at the moment of delivery, and
whether the character was delivered from inside an expanded general
entity (the `parse_general_entity_text` callback path, lines 404-416).
A literal (non-entity, non-reference) event whose character equals the
opening quote closes the literal. -/

structure AttrEvent where
  char : Int
  from_char_reference : Bool := false
  from_entity : Bool := false

/-- The push step shared by the three delivery paths (parser.cpp lines
407-414 and 429-434): literal whitespace that was not produced by a
character reference is stored as SPACE. -/
def attr_norm_char (e : AttrEvent) : Int :=
  if is_whitespace e.char ∧ ¬ e.from_char_reference then SPACE else e.char

/-- `valid_attribute_value_character` from utils.cpp: a valid `Char`
that is neither `<` nor `&`. -/
def valid_attribute_value_character (c : Int) : Bool :=
  valid_character c && !([LEFT_ANGLE_BRACKET, AMPERSAND] : XString).contains c

/-- The value-gathering loop of `Parser::parse_attribute_value`
(parser.cpp lines 395-435).  Running out of events corresponds to an
unexpected end of input. -/
def parse_attribute_value_chars (quote : Int) (references_active : Bool) :
    List AttrEvent → Except Err XString
  | [] => .error .unexpected_eof
  | e :: rest =>
    if e.from_entity then
      if ¬ references_active then .error .entity_reference_disallowed
      else if ¬ e.from_char_reference ∧ ¬ valid_attribute_value_character e.char then
        .error .invalid_attribute_character
      else
        match parse_attribute_value_chars quote references_active rest with
        | .error err => .error err
        | .ok v => .ok (attr_norm_char e :: v)
    else if ¬ e.from_char_reference then
      if e.char = quote then .ok []
      else if ¬ valid_attribute_value_character e.char then
        .error .invalid_attribute_character
      else
        match parse_attribute_value_chars quote references_active rest with
        | .error err => .error err
        | .ok v => .ok (attr_norm_char e :: v)
    else
      if ¬ references_active then .error .character_reference_disallowed
      else
        match parse_attribute_value_chars quote references_active rest with
        | .error err => .error err
        | .ok v => .ok (attr_norm_char e :: v)

/-- The collapsing loop of `Parser::parse_attribute_value` (parser.cpp
lines 447-451): a character is kept unless both it and the previous
character of the trimmed value are SPACE.  `prev` carries the previous
character; at the first position the C++ condition short-circuits on
`*it != SPACE` (the trimmed value never starts with SPACE), so the
initial `prev` value is immaterial and SPACE is passed. -/
def collapse_spaces (prev : Int) : XString → XString
  | [] => []
  | c :: rest =>
    if c ≠ SPACE ∨ prev ≠ SPACE then c :: collapse_spaces c rest
    else collapse_spaces c rest

/-- The non-CDATA normalisation of `Parser::parse_attribute_value`
(parser.cpp lines 436-453): `find_if` from the front and from the back
delimit the value with leading and trailing spaces discarded (modelled
with `dropWhile` on the list and on its reverse), and the kept range is
copied through `collapse_spaces`.  When the value is non-empty and
consists entirely of SPACE, the front `find_if` reaches `end()` while
the reversed one yields `begin()`, so `non_space_end - non_space_begin`
is negative; converted to the unsigned size type it exceeds
`max_size()` and `normalised.reserve` throws `std::length_error`, which
no handler catches. -/
def normalise_attribute_value (value : XString) : Except Err XString :=
  if value ≠ [] ∧ value.dropWhile (fun c => c == SPACE) = [] then
    .error .length_error
  else
    let front_trimmed := value.dropWhile (fun c => c == SPACE)
    let middle := (front_trimmed.reverse.dropWhile (fun c => c == SPACE)).reverse
    .ok (collapse_spaces SPACE middle)

/-- `Parser::parse_attribute_value` after the opening quote has been
consumed: gather the value, then normalise it unless the attribute is
treated as CDATA. -/
def parse_attribute_value (quote : Int) (references_active is_cdata : Bool)
    (events : List AttrEvent) : Except Err XString :=
  match parse_attribute_value_chars quote references_active events with
  | .error e => .error e
  | .ok value =>
    if is_cdata then .ok value else normalise_attribute_value value

/-- Claim-side definition (spec words): collapse every run of adjacent
SPACE characters to a single SPACE, leaving other characters alone. -/
def spec_collapse_runs : XString → XString
  | [] => []
  | c :: rest =>
    if c = SPACE then SPACE :: spec_collapse_runs (rest.dropWhile (fun x => x == SPACE))
    else c :: spec_collapse_runs rest
  termination_by l => l.length
  decreasing_by
  · have := (List.dropWhile_sublist (l := rest) (fun x => x == SPACE)).length_le
    simp
    omega
  · simp

/-- Claim-side definition (spec words): remove leading and trailing
SPACE characters. -/
def spec_trim (l : XString) : XString :=
  ((l.dropWhile (fun c => c == SPACE)).reverse.dropWhile (fun c => c == SPACE)).reverse

/-- Claim-side definition (spec words): the non-CDATA normalisation
result — runs of adjacent SPACE collapsed to a single SPACE, leading
and trailing SPACE removed. -/
def spec_normalised (l : XString) : XString := spec_collapse_runs (spec_trim l)

/-! ### Attribute declarations (utils.h, parser.cpp lines 1545-1602) -/

inductive AttributeType where
  | cdata | id | idref | idrefs | entity | entities | nmtoken | nmtokens
  | notation_type | enumeration
  deriving DecidableEq

inductive AttributePresence where
  | required | implied | fixed | relaxed
  deriving DecidableEq

/-- `AttributeDeclaration` from utils.h (`notations` and `enumeration`
are `std::set<String>` values, modelled as lists in set order). -/
structure AttributeDeclaration where
  name : XString := []
  type : AttributeType := .cdata
  presence : AttributePresence := .relaxed
  notations : List XString := []
  enumeration : List XString := []
  has_default_value : Bool := false
  default_value : XString := []
  from_external : Bool := false

/-- An `AttributeListDeclaration` (`std::map<String, AttributeDeclaration>`),
as the association list of its entries in map iteration order. -/
abbrev AttributeListDeclaration := List (XString × AttributeDeclaration)

/-- Insertion of a fresh key into a `std::map`, as seen through lookups. -/
def map_insert {α : Type} (m : List (XString × α)) (k : XString) (v : α) :
    List (XString × α) := m ++ [(k, v)]

/-- `XML_SPACE` from utils.h: the reserved attribute name `xml:space`. -/
def XML_SPACE : XString := [120, 109, 108, 58, 115, 112, 97, 99, 101]

/-- `XML_SPACE_ENUMS` from utils.h: the three admissible enumeration
sets for `xml:space` — written `default` = [100,101,102,97,117,108,116]
and `preserve` = [112,114,101,115,101,114,118,101], each inner set in
`std::set` (sorted) element order, the outer set in its sorted order. -/
def XML_SPACE_ENUMS : List (List XString) :=
  [[[100, 101, 102, 97, 117, 108, 116]],
   [[100, 101, 102, 97, 117, 108, 116], [112, 114, 101, 115, 101, 114, 118, 101]],
   [[112, 114, 101, 115, 101, 114, 118, 101]]]

/-- The registration tail of `Parser::parse_attribute_declaration`
(parser.cpp lines 1585-1602), entered after the declaration `ad` has
been syntactically parsed: a repeat declaration of an attribute name
already in the list is silently discarded; only then is the `xml:space`
enumeration constraint checked, and the declaration recorded with its
`from_external` origin. -/
def register_attribute_declaration (external_dtd_content_active : Bool)
    (attlist : AttributeListDeclaration) (ad : AttributeDeclaration) :
    Except Err AttributeListDeclaration :=
  if (lookup attlist ad.name).isSome then .ok attlist
  else if ad.name = XML_SPACE ∧
      (ad.type ≠ .enumeration ∨ ¬ XML_SPACE_ENUMS.contains ad.enumeration) then
    .error .xml_space_not_enum
  else .ok (map_insert attlist ad.name { ad with from_external := external_dtd_content_active })

/-- The attribute-defaulting step of `Parser::parse_tag` (parser.cpp
lines 745-757): walk the element's attribute-list declaration; every
declared attribute that is absent from the tag and has a default value
is added with that default, unless the declaration came from an
external source and the document is standalone, which is an error. -/
def apply_default_attributes (standalone : Bool) (ald : AttributeListDeclaration)
    (attributes : List (XString × XString)) : Except Err (List (XString × XString)) :=
  match ald with
  | [] => .ok attributes
  | (attribute_name, ad) :: rest =>
    if (lookup attributes attribute_name).isNone ∧ ad.has_default_value then
      if ad.from_external ∧ standalone then .error .standalone_external_default
      else apply_default_attributes standalone rest
        (map_insert attributes attribute_name ad.default_value)
    else apply_default_attributes standalone rest attributes

/-! ### Entity expansion state (parser.cpp lines 538-570, 609-663)

The recursion-guard state of the parser: for each of the two entity
stacks, the stack of names of the active `EntityStream` values
(innermost first) and the corresponding name set
(`general_entity_names` / `parameter_entity_names`).  The operations
below are the only places the C++ code mutates these four members. -/

structure GeneralEntityInfo where
  value : XString := []
  is_external : Bool := false
  is_unparsed : Bool := false
  from_external : Bool := false

structure ParameterEntityInfo where
  value : XString := []
  is_external : Bool := false
  from_external : Bool := false

structure ParserEntityState where
  general_entity_names : List XString := []
  general_entity_stack : List XString := []
  parameter_entity_names : List XString := []
  parameter_entity_stack : List XString := []

/-- `Parser::parse_general_entity` (parser.cpp lines 538-570) given the
already-collected entity name: the checks in source order, then the
push.  The external-entity-in-attribute check comes after the name is
inserted in the C++ code; since every error aborts the parse, the
post-error state is unobservable and the error is returned directly. -/
def parse_general_entity_push (general_entities : List (XString × GeneralEntityInfo))
    (standalone in_attribute_value : Bool) (name : XString) (s : ParserEntityState) :
    Except Err ParserEntityState :=
  match lookup general_entities name with
  | none => .error .undeclared_entity
  | some ge =>
    if ge.is_unparsed then .error .unparsed_entity_reference
    else if (lookup BUILT_IN_GENERAL_ENTITIES name).isNone ∧ ge.from_external ∧ standalone then
      .error .external_entity_standalone
    else if name ∈ s.general_entity_names then .error .recursive_entity
    else if ge.is_external ∧ in_attribute_value then .error .external_entity_in_attribute
    else .ok { s with
      general_entity_names := name :: s.general_entity_names,
      general_entity_stack := name :: s.general_entity_stack }

/-- The pop performed when the topmost general entity stream is
exhausted (parser.cpp lines 280-286 and 236-241): erase its name from
the active set and pop the stack. -/
def general_entity_pop (s : ParserEntityState) : ParserEntityState :=
  match s.general_entity_stack with
  | [] => s
  | top :: rest => { s with
      general_entity_names := s.general_entity_names.erase top,
      general_entity_stack := rest }

/-- `Parser::end_general_entity` (parser.cpp lines 600-607): clear the
stack and the name set. -/
def end_general_entity (s : ParserEntityState) : ParserEntityState :=
  { s with general_entity_names := [], general_entity_stack := [] }

/-- `Parser::parse_parameter_entity` (parser.cpp lines 609-645) given
the already-collected entity name: declaredness check, recursion check,
push. -/
def parse_parameter_entity_push (parameter_entities : List (XString × ParameterEntityInfo))
    (name : XString) (s : ParserEntityState) : Except Err ParserEntityState :=
  match lookup parameter_entities name with
  | none => .error .undeclared_entity
  | some _ =>
    if name ∈ s.parameter_entity_names then .error .recursive_entity
    else .ok { s with
      parameter_entity_names := name :: s.parameter_entity_names,
      parameter_entity_stack := name :: s.parameter_entity_stack }

/-- The pop performed when the topmost parameter entity stream is
exhausted (parser.cpp lines 289-297). -/
def parameter_entity_pop (s : ParserEntityState) : ParserEntityState :=
  match s.parameter_entity_stack with
  | [] => s
  | top :: rest => { s with
      parameter_entity_names := s.parameter_entity_names.erase top,
      parameter_entity_stack := rest }

/-- `Parser::end_parameter_entity` (parser.cpp lines 655-663). -/
def end_parameter_entity (s : ParserEntityState) : ParserEntityState :=
  { s with parameter_entity_names := [], parameter_entity_stack := [] }

/-- The ways a parse run mutates the entity state, in the order they
occur in a run. -/
inductive EntityOp where
  | push_general (general_entities : List (XString × GeneralEntityInfo))
      (standalone in_attribute_value : Bool) (name : XString)
  | pop_general
  | end_general
  | push_parameter (parameter_entities : List (XString × ParameterEntityInfo))
      (name : XString)
  | pop_parameter
  | end_parameter

def apply_entity_op (s : ParserEntityState) : EntityOp → Except Err ParserEntityState
  | .push_general ges standalone in_attr name =>
    parse_general_entity_push ges standalone in_attr name s
  | .pop_general => .ok (general_entity_pop s)
  | .end_general => .ok (end_general_entity s)
  | .push_parameter pes name => parse_parameter_entity_push pes name s
  | .pop_parameter => .ok (parameter_entity_pop s)
  | .end_parameter => .ok (end_parameter_entity s)

/-- A parse run as a sequence of entity-state operations starting from
a given state; the first failing operation aborts the run (fail-fast,
as in the C++ parser). -/
def run_entity_ops : List EntityOp → ParserEntityState → Except Err ParserEntityState
  | [], s => .ok s
  | op :: rest, s =>
    match apply_entity_op s op with
    | .error e => .error e
    | .ok s2 => run_entity_ops rest s2

/-! ### Name / Nmtoken predicates (utils.cpp lines 134-186) -/

/-- `valid_name` from utils.cpp: non-empty; when `check_all_chars` is
set, the first character must be a NameStartChar and the rest NameChars;
names of length at least 3 must not start with `xml` (case-insensitive,
via `std::tolower` on the first three characters). -/
def valid_name (name : XString) (check_all_chars : Bool := false) : Bool :=
  if name.isEmpty then false
  else if check_all_chars ∧
      (¬ valid_name_start_character (name.headD 0) ∨
        ¬ (name.drop 1).all valid_name_character) then false
  else if name.length < 3 then true
  else decide ¬ (cpp_tolower (name.getD 0 0) = 120 ∧ cpp_tolower (name.getD 1 0) = 109 ∧
    cpp_tolower (name.getD 2 0) = 108)

/-- `valid_nmtoken` from utils.cpp: non-empty and all NameChars. -/
def valid_nmtoken (nmtoken : XString) : Bool :=
  !nmtoken.isEmpty && nmtoken.all valid_name_character

/-- The accumulation loop of `valid_names_or_nmtokens` (utils.cpp lines
160-173): tokens are separated by single SPACE characters; each token
closed by a SPACE is validated as a Name (`check_all_chars` set) or as
a Nmtoken; the final token is only checked to be non-empty. -/
def valid_names_or_nmtokens_loop (is_nmtokens : Bool) (value : XString) :
    XString → Bool
  | [] => !value.isEmpty
  | c :: rest =>
    if c = SPACE then
      if (¬ is_nmtokens ∧ ¬ valid_name value true) ∨ (is_nmtokens ∧ ¬ valid_nmtoken value)
      then false
      else valid_names_or_nmtokens_loop is_nmtokens [] rest
    else valid_names_or_nmtokens_loop is_nmtokens (value ++ [c]) rest

/-- `valid_names_or_nmtokens` from utils.cpp. -/
def valid_names_or_nmtokens (string : XString) (is_nmtokens : Bool) : Bool :=
  if string.isEmpty then false
  else valid_names_or_nmtokens_loop is_nmtokens [] string

/-- `valid_names` from utils.cpp. -/
def valid_names (names : XString) : Bool := valid_names_or_nmtokens names false

/-- `valid_nmtokens` from utils.cpp. -/
def valid_nmtokens (nmtokens : XString) : Bool := valid_names_or_nmtokens nmtokens true

/-! ### Document tree and DTD (utils.h)

Only the parts of `Element` and `DoctypeDeclaration` that the validated
claims touch are carried: an element's tag name, its attribute map
(pairwise-distinct keys, invariant I2) and its children, and the DTD's
attribute-list declarations and general entities. -/

inductive Element where
  | mk (name : XString) (attributes : List (XString × XString)) (children : List Element)

def Element.name : Element → XString
  | .mk n _ _ => n

def Element.attributes : Element → List (XString × XString)
  | .mk _ a _ => a

def Element.children : Element → List Element
  | .mk _ _ c => c

structure DoctypeDeclaration where
  attribute_list_declarations : List (XString × AttributeListDeclaration) := []
  general_entities : List (XString × GeneralEntityInfo) := []

/-! ### ID collection pass (`parse_and_validate_ids`, validate.cpp lines 362-382) -/

/-- The declaration loop of `parse_and_validate_ids`: the first ID-typed
attribute declaration in map iteration order is the one considered (the
C++ loop breaks after it). -/
def find_id_declaration (ald : AttributeListDeclaration) :
    Option (XString × AttributeDeclaration) :=
  ald.find? (fun p => p.2.type == .id)

mutual

/-- `parse_and_validate_ids` from validate.cpp: collect the element's own
ID value if any (rejecting a value already collected), then recurse over
the children.  `ids` is the `std::set<String>` accumulator, modelled as
the list of collected values (most recent first). -/
def parse_and_validate_ids (dtd : DoctypeDeclaration) :
    Element → List XString → Except Err (List XString)
  | .mk name attributes children, ids =>
    let step : Except Err (List XString) :=
      match lookup dtd.attribute_list_declarations name with
      | none => .ok ids
      | some ald =>
        match find_id_declaration ald with
        | none => .ok ids
        | some (attribute_name, _) =>
          match lookup attributes attribute_name with
          | none => .ok ids
          | some id => if ids.contains id then .error .repeated_id_value else .ok (id :: ids)
    match step with
    | .error e => .error e
    | .ok ids2 => parse_and_validate_ids_list dtd children ids2

def parse_and_validate_ids_list (dtd : DoctypeDeclaration) :
    List Element → List XString → Except Err (List XString)
  | [], ids => .ok ids
  | e :: es, ids =>
    match parse_and_validate_ids dtd e ids with
    | .error err => .error err
    | .ok ids2 => parse_and_validate_ids_list dtd es ids2

end

/-- The ID value contributed directly by one element: the value of its
(first) declared ID-typed attribute, when the element carries it. -/
def element_own_ids (dtd : DoctypeDeclaration) (name : XString)
    (attributes : List (XString × XString)) : List XString :=
  match lookup dtd.attribute_list_declarations name with
  | none => []
  | some ald =>
    match find_id_declaration ald with
    | none => []
    | some (attribute_name, _) =>
      match lookup attributes attribute_name with
      | none => []
      | some id => [id]

mutual

/-- All ID values of the document subtree rooted at an element, in the
order `parse_and_validate_ids` visits them (pre-order). -/
def gather_ids (dtd : DoctypeDeclaration) : Element → List XString
  | .mk name attributes children =>
    element_own_ids dtd name attributes ++ gather_ids_list dtd children

def gather_ids_list (dtd : DoctypeDeclaration) : List Element → List XString
  | [] => []
  | e :: es => gather_ids dtd e ++ gather_ids_list dtd es

end

mutual

/-- All elements of a subtree (the subtree root first, pre-order). -/
def elements_of : Element → List Element
  | .mk name attributes children => .mk name attributes children :: elements_of_list children

def elements_of_list : List Element → List Element
  | [] => []
  | e :: es => elements_of e ++ elements_of_list es

end

/-! ### Attribute validation pass (`validate_attributes`, validate.cpp lines 243-360) -/

/-- `validate_default_attribute_value` from validate.cpp (the `dtd`
parameter of the C++ signature is unused by the switch and omitted):
type-check one attribute value against the declared attribute type.
CDATA has no case in the C++ switch and passes. -/
def validate_default_attribute_value (ad : AttributeDeclaration) (value : XString) :
    Except Err Unit :=
  match ad.type with
  | .id | .idref | .entity =>
    if ¬ valid_name value true then .error .attribute_value_error else .ok ()
  | .idrefs | .entities =>
    if ¬ valid_names value then .error .attribute_value_error else .ok ()
  | .nmtoken =>
    if ¬ valid_nmtoken value then .error .attribute_value_error else .ok ()
  | .nmtokens =>
    if ¬ valid_nmtokens value then .error .attribute_value_error else .ok ()
  | .notation_type =>
    if ¬ ad.notations.contains value then .error .attribute_value_error else .ok ()
  | .enumeration =>
    if ¬ ad.enumeration.contains value then .error .attribute_value_error else .ok ()
  | .cdata => .ok ()

/-- `is_unparsed_entity` (the lambda in `validate_attributes`,
validate.cpp lines 256-258). -/
def is_unparsed_entity (dtd : DoctypeDeclaration) (value : XString) : Bool :=
  match lookup dtd.general_entities value with
  | some ge => ge.is_unparsed
  | none => false

/-- The token-splitting loops of `validate_attributes` for IDREFS and
ENTITIES values (validate.cpp lines 298-316 and 322-343): accumulate
characters into `current`; each SPACE closes a token checked by
`ok_token`; the final token is checked after the loop. -/
def check_space_separated_tokens (ok_token : XString → Bool) (current : XString) :
    XString → Bool
  | [] => ok_token current
  | c :: rest =>
    if c = SPACE then ok_token current && check_space_separated_tokens ok_token [] rest
    else check_space_separated_tokens ok_token (current ++ [c]) rest

/-- The per-declaration loop of `validate_attributes` (validate.cpp
lines 259-351): for each declared attribute, require presence unless
IMPLIED; FIXED values must equal the default, other values are
type-checked; IDREF/IDREFS values must match collected IDs and
ENTITY/ENTITIES values declared unparsed entities.  Returns the number
of declared attributes found on the element (`registered`). -/
def validate_element_attributes (dtd : DoctypeDeclaration) (ids : List XString)
    (attributes : List (XString × XString)) :
    AttributeListDeclaration → Nat → Except Err Nat
  | [], registered => .ok registered
  | (attribute_name, ad) :: rest, registered =>
    match lookup attributes attribute_name with
    | none =>
      if ad.presence = .implied then
        validate_element_attributes dtd ids attributes rest registered
      else .error .required_attribute_missing
    | some value =>
      let basic : Except Err Unit :=
        if ad.presence = .fixed then
          if value ≠ ad.default_value then .error .fixed_attribute_mismatch else .ok ()
        else validate_default_attribute_value ad value
      match basic with
      | .error e => .error e
      | .ok _ =>
        let cross_ok : Bool :=
          match ad.type with
          | .idref => ids.contains value
          | .idrefs => check_space_separated_tokens (fun t => ids.contains t) [] value
          | .entity => is_unparsed_entity dtd value
          | .entities => check_space_separated_tokens (fun t => is_unparsed_entity dtd t) [] value
          | _ => true
        if ¬ cross_ok then .error .attribute_value_error
        else validate_element_attributes dtd ids attributes rest (registered + 1)

mutual

/-- `validate_attributes` from validate.cpp: an element with no
attribute-list declaration must carry no attributes; otherwise its
attributes are validated against the declaration and any attribute not
accounted for (`registered < attributes.size()`) is an error; then the
children are validated. -/
def validate_attributes (dtd : DoctypeDeclaration) (ids : List XString) :
    Element → Except Err Unit
  | .mk name attributes children =>
    match lookup dtd.attribute_list_declarations name with
    | none =>
      if ¬ attributes.isEmpty then .error .attlist_missing
      else validate_attributes_list dtd ids children
    | some ald =>
      match validate_element_attributes dtd ids attributes ald 0 with
      | .error e => .error e
      | .ok registered =>
        if registered < attributes.length then .error .undeclared_attributes
        else validate_attributes_list dtd ids children

def validate_attributes_list (dtd : DoctypeDeclaration) (ids : List XString) :
    List Element → Except Err Unit
  | [] => .ok ()
  | e :: es =>
    match validate_attributes dtd ids e with
    | .error err => .error err
    | .ok _ => validate_attributes_list dtd ids es

end

/-- The attribute pass of `validate_document` (validate.cpp lines
21-26): the ID-collecting pass over the whole tree starting from an
empty set, then attribute validation against the collected IDs.
Returns the collected IDs. -/
def validate_attributes_pass (dtd : DoctypeDeclaration) (root : Element) :
    Except Err (List XString) :=
  match parse_and_validate_ids dtd root [] with
  | .error e => .error e
  | .ok ids =>
    match validate_attributes dtd ids root with
    | .error e => .error e
    | .ok _ => .ok ids

/-- Claim-side splitter: the space-separated tokens of a value,
including empty tokens (splitting at every SPACE). -/
def split_spaces_from (current : XString) : XString → List XString
  | [] => [current]
  | c :: rest =>
    if c = SPACE then current :: split_spaces_from [] rest
    else split_spaces_from (current ++ [c]) rest

/-- Claim-side splitter at the top level. -/
def split_spaces (v : XString) : List XString := split_spaces_from [] v

/-! ### Element content models (utils.h, validate.cpp lines 61-109)

`valid_element_content_helper` matches the children of an element
against an `ElementContentModel`, walking a cursor `pos` over the list
of child tag names (only the tag names are consulted).  The C++ outer
loops are bounded by `max_count` (up to `INT_MAX`) and rely on the
no-progress guard for termination; the Lean embedding carries an
explicit iteration budget (`fuel`), set to `children.length + 1` at
each group entry, and the termination theorem for claim C1 shows this
budget is never exhausted, so the embedding computes the same result
as the unbounded C++ loop. -/

def INT_MAX : Nat := 2147483647

inductive ElementContentCount where
  | one | zero_or_one | zero_or_more | one_or_more
  deriving DecidableEq

/-- `ELEMENT_CONTENT_COUNT_MINIMA` from utils.h. -/
def ELEMENT_CONTENT_COUNT_MINIMA : ElementContentCount → Nat
  | .one => 1
  | .one_or_more => 1
  | .zero_or_one => 0
  | .zero_or_more => 0

/-- `ELEMENT_CONTENT_COUNT_MAXIMA` from utils.h. -/
def ELEMENT_CONTENT_COUNT_MAXIMA : ElementContentCount → Nat
  | .one => 1
  | .one_or_more => INT_MAX
  | .zero_or_one => 1
  | .zero_or_more => INT_MAX

/-- `ElementContentModel` from utils.h: a leaf (`is_name` set, carrying
an element name) or a sequence/choice group over parts. -/
inductive ElementContentModel where
  | name (count : ElementContentCount) (nm : XString)
  | group (count : ElementContentCount) (is_sequence : Bool)
      (parts : List ElementContentModel)

/-- The leaf loop of `valid_element_content_helper` (validate.cpp lines
67-75): consume consecutive children carrying the leaf name, bounded by
`max_count`. -/
def match_name_loop (children : List XString) (nm : XString) (max_count : Nat)
    (count pos : Nat) : Nat × Nat :=
  if h : count < max_count ∧ pos < children.length ∧ children.getD pos [] = nm then
    match_name_loop children nm max_count (count + 1) (pos + 1)
  else (count, pos)
  termination_by children.length - pos
  decreasing_by omega

mutual

/-- `valid_element_content_helper` from validate.cpp: returns the
matching verdict (`count` within `[min, max]`) and the final cursor, or
`none` if the iteration budget ran out (shown unreachable by the C1
termination theorem). -/
def valid_element_content_helper (children : List XString)
    (ecm : ElementContentModel) (pos : Nat) : Option (Bool × Nat) :=
  match ecm with
  | .name cnt nm =>
    let r := match_name_loop children nm (ELEMENT_CONTENT_COUNT_MAXIMA cnt) 0 pos
    some (decide (ELEMENT_CONTENT_COUNT_MINIMA cnt ≤ r.1 ∧
      r.1 ≤ ELEMENT_CONTENT_COUNT_MAXIMA cnt), r.2)
  | .group cnt is_sequence parts =>
    match content_group_loop children is_sequence parts
        (ELEMENT_CONTENT_COUNT_MAXIMA cnt) 0 pos pos (children.length + 1) with
    | none => none
    | some (count, pos2) =>
      some (decide (ELEMENT_CONTENT_COUNT_MINIMA cnt ≤ count ∧
        count ≤ ELEMENT_CONTENT_COUNT_MAXIMA cnt), pos2)
  termination_by (sizeOf ecm, 0, 0)

/-- One group iteration: `std::all_of` over the parts for a sequence
group, `std::any_of` for a choice group. -/
def match_parts (children : List XString) (is_sequence : Bool)
    (parts : List ElementContentModel) (pos : Nat) : Option (Bool × Nat) :=
  if is_sequence then match_parts_sequence children parts pos
  else match_parts_choice children parts pos
  termination_by (sizeOf parts, 2, 0)

/-- The `std::all_of` call over the group parts (sequence groups): every
part must match; the cursor advances through failing prefixes exactly as
the C++ `pos` reference does. -/
def match_parts_sequence (children : List XString) :
    List ElementContentModel → Nat → Option (Bool × Nat)
  | [], pos => some (true, pos)
  | p :: rest, pos =>
    match valid_element_content_helper children p pos with
    | none => none
    | some (false, pos2) => some (false, pos2)
    | some (true, pos2) => match_parts_sequence children rest pos2
  termination_by parts pos => (sizeOf parts, 1, 0)

/-- The `std::any_of` call over the group parts (choice groups): the
first matching part wins; failing parts may still have advanced the
cursor. -/
def match_parts_choice (children : List XString) :
    List ElementContentModel → Nat → Option (Bool × Nat)
  | [], pos => some (false, pos)
  | p :: rest, pos =>
    match valid_element_content_helper children p pos with
    | none => none
    | some (true, pos2) => some (true, pos2)
    | some (false, pos2) => match_parts_choice children rest pos2
  termination_by parts pos => (sizeOf parts, 1, 0)

/-- The group loop of `valid_element_content_helper` (validate.cpp lines
81-106): iterate full part matches while `count < max_count`; when an
iteration makes no progress (`pos == previous_pos`), set the count to
`INT_MAX` and stop. -/
def content_group_loop (children : List XString) (is_sequence : Bool)
    (parts : List ElementContentModel) (max_count count pos previous_pos fuel : Nat) :
    Option (Nat × Nat) :=
  if max_count ≤ count then some (count, pos)
  else
    match match_parts children is_sequence parts pos with
    | none => none
    | some (false, pos2) => some (count, pos2)
    | some (true, pos2) =>
      if pos2 = previous_pos then some (INT_MAX, pos2)
      else if fuel = 0 then none
      else content_group_loop children is_sequence parts max_count (count + 1) pos2 pos2 (fuel - 1)
  termination_by (sizeOf parts, 3, fuel)

end

/-! ### Claim-side numeric helpers (for stating claim C5) -/

/-- Claim-side: the numeric value of a decimal digit string. -/
def dec_value (ds : XString) : Int := ds.foldl (fun v c => v * 10 + (c - 48)) 0

/-- Claim-side: the numeric value of one hexadecimal digit, exactly as
the code computes it (lower the letter, then offset). -/
def hex_digit_value (c : Int) : Int :=
  if cpp_tolower c ≥ 97 then cpp_tolower c - 97 + 10 else cpp_tolower c - 48

/-- Claim-side: the numeric value of a hexadecimal digit string. -/
def hex_value (ds : XString) : Int := ds.foldl (fun v c => v * 16 + hex_digit_value c) 0

/-- Claim-side invariant (for claim C3): each active-entity name set is
a permutation of the corresponding stack of active entity names, and
each stack is duplicate-free, so membership in the name set means
exactly "this entity is currently being expanded". -/
def entity_state_inv (s : ParserEntityState) : Prop :=
  s.general_entity_names.Perm s.general_entity_stack ∧
  s.parameter_entity_names.Perm s.parameter_entity_stack ∧
  s.general_entity_stack.Nodup ∧ s.parameter_entity_stack.Nodup

/-!
## Theorems

First a few facts about association-list lookup shared by several
claims, then one theorem (plus witness or counterexample) per claim.
-/

theorem lookup_map_insert {α : Type} (m : List (XString × α)) (k k2 : XString) (v : α) :
    lookup (map_insert m k v) k2 =
      ((lookup m k2).or (if k = k2 then some v else none)) := by
  induction m with
  | nil => simp [lookup, map_insert]
  | cons hd rest ih =>
    obtain ⟨k1, v1⟩ := hd
    by_cases h1 : k1 = k2
    · simp [lookup, map_insert, h1]
    · simpa [lookup, map_insert, h1] using ih

theorem lookup_map_insert_ne {α : Type} (m : List (XString × α)) (k k2 : XString) (v : α)
    (h : k ≠ k2) : lookup (map_insert m k v) k2 = lookup m k2 := by
  rw [lookup_map_insert, if_neg h]
  rcases lookup m k2 <;> rfl

/-- C4: UTF-8 decoding returns a leading byte 0b0xxxxxxx directly as a
1-byte ASCII code point and otherwise reads as many total bytes as the
leading byte's count of leading 1 bits (2 to 4, five or more being
rejected) — but, contrary to the claim's last two clauses, the
continuation-byte check `(byte & 0b01000000) == 1` can never fire, so
the continuation byte 0xC0 (leading bits 11, violating 0b10) is
accepted and decodes with C3 to the code point 0xC0; and no check
rejects decoded code points above 0x10FFFF, so F7 BF BF BF decodes to
0x1FFFFF without error.  This theorem evaluates the code at both
failing inputs. -/
theorem C4_utf8_code_divergence :
    parse_utf8 [0xC3, 0xC0] = .ok (0xC0, []) ∧
    parse_utf8 [0xF7, 0xBF, 0xBF, 0xBF] = .ok (0x1FFFFF, []) :=
  ⟨rfl, rfl⟩

/-- C10: when an ATTLIST declaration for an element already contains an
`xml:space` declaration, a repeated `xml:space` declaration is
discarded before the enumeration constraint is checked, so it is
silently ignored (the list is returned unchanged and no error is
raised) whatever its type; the enumeration constraint is enforced only
when no previous `xml:space` declaration exists. -/
theorem C10_repeated_xml_space_ignored (active : Bool)
    (attlist : AttributeListDeclaration) (ad : AttributeDeclaration) :
    (ad.name = XML_SPACE → (lookup attlist XML_SPACE).isSome →
      register_attribute_declaration active attlist ad = .ok attlist) ∧
    (ad.name = XML_SPACE → lookup attlist XML_SPACE = none →
      (ad.type ≠ .enumeration ∨ ¬ XML_SPACE_ENUMS.contains ad.enumeration) →
      register_attribute_declaration active attlist ad = .error .xml_space_not_enum) := by
  constructor
  · intro h1 h2
    unfold register_attribute_declaration
    rw [h1, if_pos h2]
  · intro h1 h2 h3
    unfold register_attribute_declaration
    rw [h1, h2]
    split_ifs with hA hB
    · simp at hA
    · rfl
    · exact absurd ⟨rfl, h3⟩ hB

/-- Witness for C10: a concrete attribute list already declaring
`xml:space` and a repeated CDATA-typed `xml:space` declaration that is
silently ignored. -/
theorem C10_witness :
    register_attribute_declaration true
      [(XML_SPACE, { name := XML_SPACE, type := .enumeration })]
      { name := XML_SPACE, type := .cdata } =
      .ok [(XML_SPACE, { name := XML_SPACE, type := .enumeration })] :=
  (C10_repeated_xml_space_ignored true
    [(XML_SPACE, { name := XML_SPACE, type := .enumeration })]
    { name := XML_SPACE, type := .cdata }).1 rfl (by rfl)

/-- C9: while parsing a start tag with `standalone = true`, applying a
defaulted attribute whose declaration is marked `from_external` fails
with the standalone-external-default error (first conjunct); and
whenever defaulting succeeds, every attribute of the resulting tag
either was present before or was supplied by a declared default that is
not an external declaration in a standalone document — so no accepted
standalone tag carries an externally-declared default (second
conjunct). -/
theorem C9_standalone_external_default (standalone : Bool)
    (ald : AttributeListDeclaration) (attrs : List (XString × XString)) :
    (∀ an ad, (ald.map Prod.fst).Nodup → (an, ad) ∈ ald → lookup attrs an = none →
      ad.has_default_value = true → ad.from_external = true → standalone = true →
      apply_default_attributes standalone ald attrs = .error .standalone_external_default) ∧
    (∀ attrs2, apply_default_attributes standalone ald attrs = .ok attrs2 →
      ∀ an v, lookup attrs2 an = some v →
        lookup attrs an = some v ∨
        ∃ ad, (an, ad) ∈ ald ∧ ad.has_default_value = true ∧ v = ad.default_value ∧
          ¬(ad.from_external = true ∧ standalone = true)) := by
  have part1 : ∀ (ald : AttributeListDeclaration) (attrs : List (XString × XString)),
      (ald.map Prod.fst).Nodup → ∀ an ad, (an, ad) ∈ ald → lookup attrs an = none →
      ad.has_default_value = true → ad.from_external = true → standalone = true →
      apply_default_attributes standalone ald attrs = .error .standalone_external_default := by
    intro ald
    induction ald with
    | nil => intro attrs _ an ad hmem; simp at hmem
    | cons hd rest ih =>
      obtain ⟨an2, ad2⟩ := hd
      intro attrs hnodup an ad hmem hnone hdef hext hsa
      simp only [List.map_cons, List.nodup_cons] at hnodup
      rcases List.mem_cons.mp hmem with heq | hrest
      · obtain ⟨h1, h2⟩ := (Prod.mk.injEq _ _ _ _).mp heq.symm
        subst h1
        subst h2
        unfold apply_default_attributes
        rw [if_pos ⟨by simp [hnone], hdef⟩, if_pos ⟨hext, hsa⟩]
      · have hne : an2 ≠ an := by
          intro hcontra
          exact hnodup.1 (hcontra ▸ (List.mem_map.mpr ⟨(an, ad), hrest, rfl⟩))
        unfold apply_default_attributes
        by_cases hc : (lookup attrs an2).isNone = true ∧ ad2.has_default_value = true
        · rw [if_pos hc]
          by_cases hc2 : ad2.from_external = true ∧ standalone = true
          · rw [if_pos hc2]
          · rw [if_neg hc2]
            refine ih _ hnodup.2 an ad hrest ?_ hdef hext hsa
            rw [lookup_map_insert_ne _ _ _ _ hne]
            exact hnone
        · rw [if_neg hc]
          exact ih _ hnodup.2 an ad hrest hnone hdef hext hsa
  have part2 : ∀ (ald : AttributeListDeclaration) (attrs attrs2 : List (XString × XString)),
      apply_default_attributes standalone ald attrs = .ok attrs2 →
      ∀ an v, lookup attrs2 an = some v →
        lookup attrs an = some v ∨
        ∃ ad, (an, ad) ∈ ald ∧ ad.has_default_value = true ∧ v = ad.default_value ∧
          ¬(ad.from_external = true ∧ standalone = true) := by
    intro ald
    induction ald with
    | nil =>
      intro attrs attrs2 hok an v hv
      unfold apply_default_attributes at hok
      cases hok
      exact Or.inl hv
    | cons hd rest ih =>
      obtain ⟨an2, ad2⟩ := hd
      intro attrs attrs2 hok an v hv
      unfold apply_default_attributes at hok
      by_cases hc : (lookup attrs an2).isNone = true ∧ ad2.has_default_value = true
      · rw [if_pos hc] at hok
        by_cases hc2 : ad2.from_external = true ∧ standalone = true
        · rw [if_pos hc2] at hok; cases hok
        · rw [if_neg hc2] at hok
          rcases ih _ _ hok an v hv with hl | ⟨ad3, h3, h4, h5, h6⟩
          · rw [lookup_map_insert] at hl
            rcases ho : lookup attrs an with _ | w
            · rw [ho] at hl
              simp only [Option.none_or] at hl
              by_cases he : an2 = an
              · subst he
                rw [if_pos rfl] at hl
                refine Or.inr ⟨ad2, List.mem_cons_self _ _, hc.2, ?_, hc2⟩
                cases hl; rfl
              · rw [if_neg he] at hl; cases hl
            · rw [ho] at hl
              simp only [Option.or_some] at hl
              exact Or.inl hl
          · exact Or.inr ⟨ad3, List.mem_cons_of_mem _ h3, h4, h5, h6⟩
      · rw [if_neg hc] at hok
        rcases ih _ _ hok an v hv with hl | ⟨ad3, h3, h4, h5, h6⟩
        · exact Or.inl hl
        · exact Or.inr ⟨ad3, List.mem_cons_of_mem _ h3, h4, h5, h6⟩
  exact ⟨fun an ad h1 h2 h3 h4 h5 h6 => part1 ald attrs h1 an ad h2 h3 h4 h5 h6,
    fun attrs2 h an v hv => part2 ald attrs attrs2 h an v hv⟩

/-- Witness for C9: a concrete externally-declared default in a
standalone document fails, applying the theorem at that input. -/
theorem C9_witness :
    apply_default_attributes true
      [([97], { name := [97], has_default_value := true, default_value := [98],
                from_external := true })]
      [] = .error .standalone_external_default :=
  (C9_standalone_external_default true
    [([97], { name := [97], has_default_value := true, default_value := [98],
              from_external := true })] []).1
    [97] { name := [97], has_default_value := true, default_value := [98],
           from_external := true }
    (by simp) (List.mem_singleton.mpr rfl) rfl rfl rfl rfl

theorem check_builtin_double_escape_spec (name bv : XString) (ch : Int)
    (hlk : lookup BUILT_IN_GENERAL_ENTITIES name = some bv)
    (hde : BUILT_IN_GENERAL_ENTITIES_MANDATORY_DOUBLE_ESCAPE.contains name = true)
    (hbv : expand_character_references bv = .ok [ch]) (value : XString) :
    check_builtin_general_entity_declaration name value = .ok () ↔
      (expand_character_references value = .ok [ch] ∧ value ≠ [ch]) := by
  unfold check_builtin_general_entity_declaration
  simp only [hlk, hbv]
  cases hv : expand_character_references value with
  | error e => simp
  | ok exp =>
    rw [hde]
    simp only [if_true]
    split_ifs with h
    · constructor
      · intro hcontra; simp at hcontra
      · rintro ⟨h1, h2⟩
        rw [Except.ok.injEq] at h1
        rcases h with h | h
        · exact absurd h h2
        · exact absurd h1 h
    · push_neg at h
      simp [h.1, h.2]

theorem check_builtin_plain_spec (name bv : XString) (ch : Int)
    (hlk : lookup BUILT_IN_GENERAL_ENTITIES name = some bv)
    (hde : BUILT_IN_GENERAL_ENTITIES_MANDATORY_DOUBLE_ESCAPE.contains name = false)
    (hbv : expand_character_references bv = .ok [ch])
    (hch : expand_character_references [ch] = .ok [ch]) (value : XString) :
    check_builtin_general_entity_declaration name value = .ok () ↔
      expand_character_references value = .ok [ch] := by
  unfold check_builtin_general_entity_declaration
  simp only [hlk, hbv]
  cases hv : expand_character_references value with
  | error e => simp
  | ok exp =>
    rw [hde]
    simp only [Bool.false_eq_true, if_false]
    split_ifs with h
    · constructor
      · intro hcontra; simp at hcontra
      · intro h1
        rw [Except.ok.injEq] at h1
        exact absurd h1 h.2
    · push_neg at h
      have hexp2 : exp = [ch] := by
        by_cases hv2 : value = [ch]
        · rw [hv2, hch] at hv
          exact (Except.ok.inj hv).symm
        · exact h hv2
      simp [hexp2]

/-- C8: a DTD declaration of a built-in general entity (`lt`, `gt`,
`amp`, `apos`, `quot`) passes the built-in value check iff the
character-reference expansion of the declared value equals the built-in
character (`<` `>` `&` apostrophe or quotation mark); for `lt` and
`amp` the declaration additionally fails when the literal declared
value already equals that character directly (double escaping is
mandatory). -/
theorem C8_builtin_entity_redeclaration (value : XString) :
    (check_builtin_general_entity_declaration [108, 116] value = .ok () ↔
      (expand_character_references value = .ok [60] ∧ value ≠ [60])) ∧
    (check_builtin_general_entity_declaration [97, 109, 112] value = .ok () ↔
      (expand_character_references value = .ok [38] ∧ value ≠ [38])) ∧
    (check_builtin_general_entity_declaration [103, 116] value = .ok () ↔
      expand_character_references value = .ok [62]) ∧
    (check_builtin_general_entity_declaration [97, 112, 111, 115] value = .ok () ↔
      expand_character_references value = .ok [39]) ∧
    (check_builtin_general_entity_declaration [113, 117, 111, 116] value = .ok () ↔
      expand_character_references value = .ok [34]) := by
  refine ⟨?_, ?_, ?_, ?_, ?_⟩
  · exact check_builtin_double_escape_spec [108, 116] [38, 35, 54, 48, 59] 60 rfl rfl
      (by simp [expand_character_references, collect_char_ref, parse_character_reference,
        char_ref_digits, cpp_tolower, cpp_isdigit, cpp_isxdigit, valid_character,
        in_any_character_range, CHARACTER_RANGES, SEMI_COLON, AMPERSAND, OCTOTHORPE]) value
  · exact check_builtin_double_escape_spec [97, 109, 112] [38, 35, 51, 56, 59] 38 rfl rfl
      (by simp [expand_character_references, collect_char_ref, parse_character_reference,
        char_ref_digits, cpp_tolower, cpp_isdigit, cpp_isxdigit, valid_character,
        in_any_character_range, CHARACTER_RANGES, SEMI_COLON, AMPERSAND, OCTOTHORPE]) value
  · exact check_builtin_plain_spec [103, 116] [38, 35, 54, 50, 59] 62 rfl rfl
      (by simp [expand_character_references, collect_char_ref, parse_character_reference,
        char_ref_digits, cpp_tolower, cpp_isdigit, cpp_isxdigit, valid_character,
        in_any_character_range, CHARACTER_RANGES, SEMI_COLON, AMPERSAND, OCTOTHORPE])
      (by simp [expand_character_references, AMPERSAND]) value
  · exact check_builtin_plain_spec [97, 112, 111, 115] [38, 35, 51, 57, 59] 39 rfl rfl
      (by simp [expand_character_references, collect_char_ref, parse_character_reference,
        char_ref_digits, cpp_tolower, cpp_isdigit, cpp_isxdigit, valid_character,
        in_any_character_range, CHARACTER_RANGES, SEMI_COLON, AMPERSAND, OCTOTHORPE])
      (by simp [expand_character_references, AMPERSAND]) value
  · exact check_builtin_plain_spec [113, 117, 111, 116] [38, 35, 51, 52, 59] 34 rfl rfl
      (by simp [expand_character_references, collect_char_ref, parse_character_reference,
        char_ref_digits, cpp_tolower, cpp_isdigit, cpp_isxdigit, valid_character,
        in_any_character_range, CHARACTER_RANGES, SEMI_COLON, AMPERSAND, OCTOTHORPE])
      (by simp [expand_character_references, AMPERSAND]) value

theorem entity_run_in_entity_value (text : XString) :
    ∀ pos, EntityStream.run ⟨text, pos, true, true, false, false⟩ = text.drop pos := by
  have key : ∀ n pos, text.length - pos ≤ n →
      EntityStream.run ⟨text, pos, true, true, false, false⟩ = text.drop pos := by
    intro n
    induction n with
    | zero =>
      intro pos hp
      rw [EntityStream.run]
      have hlen : text.length ≤ pos := by omega
      rw [if_pos (by simp [EntityStream.eof, hlen])]
      rw [List.drop_eq_nil_iff.mpr hlen]
    | succ n ih =>
      intro pos hp
      rw [EntityStream.run]
      by_cases hlen : text.length ≤ pos
      · rw [if_pos (by simp [EntityStream.eof, hlen])]
        rw [List.drop_eq_nil_iff.mpr hlen]
      · rw [if_neg (by simp [EntityStream.eof]; omega)]
        have hget : EntityStream.get ⟨text, pos, true, true, false, false⟩ =
            text.getD pos 0 := by
          simp [EntityStream.get]
        have hinc : EntityStream.inc ⟨text, pos, true, true, false, false⟩ =
            ⟨text, pos + 1, true, true, false, false⟩ := by
          simp [EntityStream.inc]
        rw [hget, hinc, ih (pos + 1) (by omega)]
        have hplen : pos < text.length := by omega
        rw [List.getD_eq_getElem text 0 hplen, List.drop_eq_getElem_cons hplen]
  exact fun pos => key (text.length - pos) pos le_rfl

theorem entity_run_padding_tail (text : XString) :
    ∀ pos, EntityStream.run ⟨text, pos, true, false, true, false⟩ =
      text.drop pos ++ [SPACE] := by
  have key : ∀ n pos, text.length - pos ≤ n →
      EntityStream.run ⟨text, pos, true, false, true, false⟩ =
        text.drop pos ++ [SPACE] := by
    intro n
    induction n with
    | zero =>
      intro pos hp
      have hlen : text.length ≤ pos := by omega
      rw [EntityStream.run]
      rw [if_neg (by simp [EntityStream.eof])]
      have hget : EntityStream.get ⟨text, pos, true, false, true, false⟩ = SPACE := by
        simp [EntityStream.get, hlen]
      have hinc : EntityStream.inc ⟨text, pos, true, false, true, false⟩ =
          ⟨text, pos, true, false, true, true⟩ := by
        simp [EntityStream.inc, hlen]
      rw [hget, hinc, EntityStream.run]
      rw [if_pos (by simp [EntityStream.eof])]
      rw [List.drop_eq_nil_iff.mpr hlen]
      rfl
    | succ n ih =>
      intro pos hp
      by_cases hlen : text.length ≤ pos
      · -- same as the base case: the trailing space is emitted and the stream ends
        have hget : EntityStream.get ⟨text, pos, true, false, true, false⟩ = SPACE := by
          simp [EntityStream.get, hlen]
        have hinc : EntityStream.inc ⟨text, pos, true, false, true, false⟩ =
            ⟨text, pos, true, false, true, true⟩ := by
          simp [EntityStream.inc, hlen]
        rw [EntityStream.run]
        rw [if_neg (by simp [EntityStream.eof])]
        rw [hget, hinc, EntityStream.run]
        rw [if_pos (by simp [EntityStream.eof])]
        rw [List.drop_eq_nil_iff.mpr hlen]
        rfl
      · have hplen : pos < text.length := by omega
        rw [EntityStream.run]
        rw [if_neg (by simp [EntityStream.eof])]
        have hget : EntityStream.get ⟨text, pos, true, false, true, false⟩ =
            text.getD pos 0 := by
          simp [EntityStream.get]
          omega
        have hinc : EntityStream.inc ⟨text, pos, true, false, true, false⟩ =
            ⟨text, pos + 1, true, false, true, false⟩ := by
          simp [EntityStream.inc]
          omega
        rw [hget, hinc, ih (pos + 1) (by omega)]
        rw [List.getD_eq_getElem text 0 hplen, List.drop_eq_getElem_cons hplen]
        rfl
  exact fun pos => key (text.length - pos) pos le_rfl

/-- C7: the character sequence an `EntityStream` delivers through
`get` / `operator++` / `eof` for a parameter entity included outside an
entity value is exactly SPACE, then the replacement text, then SPACE;
for a parameter entity included inside an entity value it is exactly
the replacement text with no padding. -/
theorem C7_parameter_entity_padding (text : XString) :
    EntityStream.run ⟨text, 0, true, false, false, false⟩ = SPACE :: (text ++ [SPACE]) ∧
    EntityStream.run ⟨text, 0, true, true, false, false⟩ = text := by
  constructor
  · rw [EntityStream.run]
    rw [if_neg (by simp [EntityStream.eof])]
    have hget : EntityStream.get ⟨text, 0, true, false, false, false⟩ = SPACE := by
      simp [EntityStream.get]
    have hinc : EntityStream.inc ⟨text, 0, true, false, false, false⟩ =
        ⟨text, 0, true, false, true, false⟩ := by
      simp [EntityStream.inc]
    rw [hget, hinc, entity_run_padding_tail text 0, List.drop_zero]
  · rw [entity_run_in_entity_value text 0, List.drop_zero]

theorem foldl_dec_bounds (ds : XString) : ∀ v : Int,
    (∀ c ∈ ds, cpp_isdigit c = true) → 0 ≤ v →
    v ≤ ds.foldl (fun a c => a * 10 + (c - 48)) v ∧
      0 ≤ ds.foldl (fun a c => a * 10 + (c - 48)) v := by
  induction ds with
  | nil => intro v _ hv; exact ⟨le_rfl, hv⟩
  | cons c rest ih =>
    intro v hd hv
    have hc := hd c (List.mem_cons_self _ _)
    simp only [cpp_isdigit, Bool.and_eq_true, decide_eq_true_eq] at hc
    have h1 : 0 ≤ v * 10 + (c - 48) := by omega
    have h2 := ih (v * 10 + (c - 48)) (fun x hx => hd x (List.mem_cons_of_mem _ hx)) h1
    simp only [List.foldl_cons]
    exact ⟨le_trans (by omega) h2.1, h2.2⟩

theorem hex_digit_value_bounds (c : Int) (hc : cpp_isxdigit c = true) :
    0 ≤ hex_digit_value c ∧ hex_digit_value c ≤ 15 := by
  simp only [cpp_isxdigit, cpp_isdigit, Bool.or_eq_true, Bool.and_eq_true,
    decide_eq_true_eq] at hc
  unfold hex_digit_value cpp_tolower
  split_ifs <;> omega

theorem foldl_hex_bounds (ds : XString) : ∀ v : Int,
    (∀ c ∈ ds, cpp_isxdigit c = true) → 0 ≤ v →
    v ≤ ds.foldl (fun a c => a * 16 + hex_digit_value c) v ∧
      0 ≤ ds.foldl (fun a c => a * 16 + hex_digit_value c) v := by
  induction ds with
  | nil => intro v _ hv; exact ⟨le_rfl, hv⟩
  | cons c rest ih =>
    intro v hd hv
    have hc := hex_digit_value_bounds c (hd c (List.mem_cons_self _ _))
    have h1 : 0 ≤ v * 16 + hex_digit_value c := by omega
    have h2 := ih (v * 16 + hex_digit_value c) (fun x hx => hd x (List.mem_cons_of_mem _ hx)) h1
    simp only [List.foldl_cons]
    exact ⟨le_trans (by omega) h2.1, h2.2⟩

theorem char_ref_digits_dec_spec (ds : XString) : ∀ v : Int,
    (∀ c ∈ ds, cpp_isdigit c = true) → 0 ≤ v → v ≤ 1114111 →
    char_ref_digits false v (ds ++ [SEMI_COLON]) =
      (if ds.foldl (fun a c => a * 10 + (c - 48)) v ≤ 1114111
       then .ok (ds.foldl (fun a c => a * 10 + (c - 48)) v)
       else .error .invalid_character) := by
  induction ds with
  | nil =>
    intro v _ _ h1
    simp only [List.nil_append, List.foldl_nil]
    unfold char_ref_digits
    norm_num [cpp_tolower, SEMI_COLON, h1]
  | cons c rest ih =>
    intro v hd h0 h1
    have hc := hd c (List.mem_cons_self _ _)
    have hc2 := hc
    simp only [cpp_isdigit, Bool.and_eq_true, decide_eq_true_eq] at hc2
    have hlow : cpp_tolower c = c := by unfold cpp_tolower; rw [if_neg (by omega)]
    simp only [List.cons_append, List.foldl_cons]
    unfold char_ref_digits
    rw [hlow]
    rw [if_neg (by simp only [SEMI_COLON]; omega)]
    simp only [Bool.false_eq_true, if_false, hc, not_true, if_neg (by simp [hc] : ¬ ¬ cpp_isdigit c = true)]
    by_cases hbig : v * 10 + (c - 48) > 1114111
    · rw [if_pos hbig]
      have := foldl_dec_bounds rest (v * 10 + (c - 48))
        (fun x hx => hd x (List.mem_cons_of_mem _ hx)) (by omega)
      rw [if_neg (by omega)]
    · rw [if_neg hbig]
      exact ih (v * 10 + (c - 48)) (fun x hx => hd x (List.mem_cons_of_mem _ hx))
        (by omega) (by omega)

theorem char_ref_digits_hex_spec (ds : XString) : ∀ v : Int,
    (∀ c ∈ ds, cpp_isxdigit c = true) → 0 ≤ v → v ≤ 1114111 →
    char_ref_digits true v (ds ++ [SEMI_COLON]) =
      (if ds.foldl (fun a c => a * 16 + hex_digit_value c) v ≤ 1114111
       then .ok (ds.foldl (fun a c => a * 16 + hex_digit_value c) v)
       else .error .invalid_character) := by
  induction ds with
  | nil =>
    intro v _ _ h1
    simp only [List.nil_append, List.foldl_nil]
    unfold char_ref_digits
    norm_num [cpp_tolower, SEMI_COLON, h1]
  | cons c rest ih =>
    intro v hd h0 h1
    have hc := hd c (List.mem_cons_self _ _)
    have hc2 := hc
    simp only [cpp_isxdigit, cpp_isdigit, Bool.or_eq_true, Bool.and_eq_true,
      decide_eq_true_eq] at hc2
    have hlowx : cpp_isxdigit (cpp_tolower c) = true := by
      simp only [cpp_isxdigit, cpp_isdigit, Bool.or_eq_true, Bool.and_eq_true,
        decide_eq_true_eq]
      unfold cpp_tolower
      split_ifs <;> omega
    have hnesemi : ¬ cpp_tolower c = SEMI_COLON := by
      simp only [SEMI_COLON]
      unfold cpp_tolower
      split_ifs <;> omega
    have hdv : (if cpp_tolower c ≥ 97 then cpp_tolower c - 97 + 10 else cpp_tolower c - 48) =
        hex_digit_value c := by
      unfold hex_digit_value
      rfl
    simp only [List.cons_append, List.foldl_cons]
    unfold char_ref_digits
    rw [if_neg hnesemi]
    simp only [if_true, hlowx, not_true,
      if_neg (by simp [hlowx] : ¬ ¬ cpp_isxdigit (cpp_tolower c) = true)]
    rw [hdv]
    have hb := hex_digit_value_bounds c hc
    by_cases hbig : v * 16 + hex_digit_value c > 1114111
    · rw [if_pos hbig]
      have hmono := foldl_hex_bounds rest (v * 16 + hex_digit_value c)
        (fun x hx => hd x (List.mem_cons_of_mem _ hx)) (by omega)
      rw [if_neg (not_le.mpr (by linarith [hmono.1, hbig]))]
      simp
    · rw [if_neg hbig]
      exact ih (v * 16 + hex_digit_value c) (fun x hx => hd x (List.mem_cons_of_mem _ hx))
        (by omega) (by omega)

theorem parser_collect_spec (xs : XString) : ∀ rest : XString,
    (∀ c ∈ xs, ¬c = SEMI_COLON ∧ ¬c = SPACE) →
    parser_collect_character_reference (xs ++ SEMI_COLON :: rest) =
      .ok (xs ++ [SEMI_COLON], rest) := by
  induction xs with
  | nil =>
    intro rest _
    unfold parser_collect_character_reference
    simp
  | cons c cs ih =>
    intro rest hd
    have hc := hd c (List.mem_cons_self _ _)
    simp only [List.cons_append]
    unfold parser_collect_character_reference
    rw [if_neg hc.1, if_neg hc.2, ih rest (fun x hx => hd x (List.mem_cons_of_mem _ hx))]

/-- C5: character-reference decoding accepts `&#D+;` (decimal) and
`&#xH+;` (hexadecimal): on the text after `&#`, a leading `x` selects
hexadecimal and its absence decimal; an empty digit sequence fails; the
decoded code point must satisfy the Char production; and an accumulated
value beyond 0x10FFFF fails through the overflow guard applied during
digit accumulation (so the result is the digits' value exactly when
that value is within 0x10FFFF and a valid Char, and the
invalid-character error otherwise).  The last two conjuncts state the
same for the parser-side reader, which consumes the reference text up
to the semicolon from the input stream and leaves the rest unread. -/
theorem C5_character_reference_decoding :
    (∀ ds : XString, ds ≠ [] → (∀ c ∈ ds, cpp_isdigit c = true) →
      parse_character_reference (ds ++ [SEMI_COLON]) =
        (if dec_value ds ≤ 1114111 ∧ valid_character (dec_value ds) = true
         then .ok (dec_value ds) else .error .invalid_character)) ∧
    (∀ ds : XString, ds ≠ [] → (∀ c ∈ ds, cpp_isxdigit c = true) →
      parse_character_reference (120 :: ds ++ [SEMI_COLON]) =
        (if hex_value ds ≤ 1114111 ∧ valid_character (hex_value ds) = true
         then .ok (hex_value ds) else .error .invalid_character)) ∧
    parse_character_reference [SEMI_COLON] = .error .char_ref_no_digit ∧
    parse_character_reference [120, SEMI_COLON] = .error .char_ref_no_digit ∧
    (∀ ds rest : XString, ds ≠ [] → (∀ c ∈ ds, cpp_isdigit c = true) →
      parser_parse_character_reference (ds ++ SEMI_COLON :: rest) =
        (if dec_value ds ≤ 1114111 ∧ valid_character (dec_value ds) = true
         then .ok (dec_value ds, rest) else .error .invalid_character)) ∧
    (∀ ds rest : XString, ds ≠ [] → (∀ c ∈ ds, cpp_isxdigit c = true) →
      parser_parse_character_reference (120 :: ds ++ SEMI_COLON :: rest) =
        (if hex_value ds ≤ 1114111 ∧ valid_character (hex_value ds) = true
         then .ok (hex_value ds, rest) else .error .invalid_character)) := by
  have hdec : ∀ ds : XString, ds ≠ [] → (∀ c ∈ ds, cpp_isdigit c = true) →
      parse_character_reference (ds ++ [SEMI_COLON]) =
        (if dec_value ds ≤ 1114111 ∧ valid_character (dec_value ds) = true
         then .ok (dec_value ds) else .error .invalid_character) := by
    intro ds hne hd
    obtain ⟨c, cs, rfl⟩ := List.exists_cons_of_ne_nil hne
    have hc2 : 48 ≤ c ∧ c ≤ 57 := by
      have := hd c (List.mem_cons_self _ _)
      simp only [cpp_isdigit, Bool.and_eq_true, decide_eq_true_eq] at this
      exact this
    have hb : decide (c = 120) = false := decide_eq_false (by omega)
    simp only [dec_value, List.cons_append]
    unfold parse_character_reference
    simp only [hb, Bool.false_eq_true, if_false]
    rw [if_neg (by simp only [SEMI_COLON]; omega)]
    rw [show (c :: (cs ++ [SEMI_COLON])) = ((c :: cs) ++ [SEMI_COLON]) from rfl]
    rw [char_ref_digits_dec_spec (c :: cs) 0 hd (le_refl 0) (by norm_num)]
    set x := (c :: cs).foldl (fun a c => a * 10 + (c - 48)) 0 with hx
    by_cases hle : x ≤ 1114111
    · rw [if_pos hle]
      by_cases hv : valid_character x = true
      · rw [if_pos ⟨hle, hv⟩]
        simp [hv]
      · rw [if_neg (by intro h2; exact hv h2.2)]
        simp [hv]
    · rw [if_neg hle, if_neg (by intro h2; exact hle h2.1)]
  have hhex : ∀ ds : XString, ds ≠ [] → (∀ c ∈ ds, cpp_isxdigit c = true) →
      parse_character_reference (120 :: ds ++ [SEMI_COLON]) =
        (if hex_value ds ≤ 1114111 ∧ valid_character (hex_value ds) = true
         then .ok (hex_value ds) else .error .invalid_character) := by
    intro ds hne hd
    obtain ⟨c, cs, rfl⟩ := List.exists_cons_of_ne_nil hne
    have hc2 : cpp_isxdigit c = true := hd c (List.mem_cons_self _ _)
    have hc3 : 48 ≤ c ∧ c ≤ 57 ∨ 97 ≤ c ∧ c ≤ 102 ∨ 65 ≤ c ∧ c ≤ 70 := by
      simpa [cpp_isxdigit, cpp_isdigit, Bool.or_eq_true, Bool.and_eq_true,
        decide_eq_true_eq, or_assoc] using hc2
    simp only [hex_value, List.cons_append]
    unfold parse_character_reference
    have h120 : (decide ((120 : Int) = 120)) = true := by decide
    simp only [h120, eq_self_iff_true, decide_True, if_true, List.getD_cons_zero]
    rw [if_neg (show ¬ (c = SEMI_COLON) by simp only [SEMI_COLON]; omega)]
    rw [show (c :: (cs ++ [SEMI_COLON])) = ((c :: cs) ++ [SEMI_COLON]) from rfl]
    rw [char_ref_digits_hex_spec (c :: cs) 0 hd (le_refl 0) (by norm_num)]
    set x := (c :: cs).foldl (fun a c => a * 16 + hex_digit_value c) 0 with hx
    by_cases hle : x ≤ 1114111
    · rw [if_pos hle]
      by_cases hv : valid_character x = true
      · rw [if_pos ⟨hle, hv⟩]
        simp [hv]
      · rw [if_neg (fun h2 => hv h2.2)]
        simp [hv]
    · rw [if_neg hle, if_neg (fun h2 => hle h2.1)]
  refine ⟨hdec, hhex, by rfl, by rfl, ?_, ?_⟩
  · intro ds rest hne hd
    have hside : ∀ c ∈ ds, ¬c = SEMI_COLON ∧ ¬c = SPACE := by
      intro c hc
      have := hd c hc
      simp only [cpp_isdigit, Bool.and_eq_true, decide_eq_true_eq] at this
      constructor <;> (simp only [SEMI_COLON, SPACE]; omega)
    unfold parser_parse_character_reference
    simp only [parser_collect_spec ds rest hside]
    rw [hdec ds hne hd]
    by_cases h : dec_value ds ≤ 1114111 ∧ valid_character (dec_value ds) = true
    · simp only [if_pos h]
    · simp only [if_neg h]
  · intro ds rest hne hd
    have hside : ∀ c ∈ (120 :: ds : XString), ¬c = SEMI_COLON ∧ ¬c = SPACE := by
      intro c hc
      rcases List.mem_cons.mp hc with rfl | hc2
      · constructor <;> (simp only [SEMI_COLON, SPACE]; omega)
      · have := hd c hc2
        simp only [cpp_isxdigit, cpp_isdigit, Bool.or_eq_true, Bool.and_eq_true,
          decide_eq_true_eq] at this
        constructor <;> (simp only [SEMI_COLON, SPACE]; omega)
    unfold parser_parse_character_reference
    rw [show (120 :: ds ++ SEMI_COLON :: rest : XString) = ((120 :: ds) ++ SEMI_COLON :: rest) from rfl,
      parser_collect_spec (120 :: ds) rest hside]
    show (match parse_character_reference (120 :: ds ++ [SEMI_COLON]) with
      | Except.error e => (Except.error e : Except Err (Int × XString))
      | Except.ok v => Except.ok (v, rest)) = _
    rw [hhex ds hne hd]
    by_cases h : hex_value ds ≤ 1114111 ∧ valid_character (hex_value ds) = true
    · rw [if_pos h, if_pos h]
    · rw [if_neg h, if_neg h]

/-- Witness for C5: the decimal reference `65;` decodes to 65 and the
parser-side hexadecimal reference `x41;` decodes to 65 leaving the rest
of the input unread, both by applying the C5 theorem at concrete
inputs. -/
theorem C5_witness :
    parse_character_reference ([54, 53] ++ [SEMI_COLON]) = .ok 65 ∧
    parser_parse_character_reference (120 :: [52, 49] ++ SEMI_COLON :: [97]) =
      .ok (65, [97]) := by
  constructor
  · rw [C5_character_reference_decoding.1 [54, 53] (by decide) (by decide)]
    rfl
  · rw [C5_character_reference_decoding.2.2.2.2.2 [52, 49] [97] (by decide) (by decide)]
    rfl

theorem attr_value_chars_characterization :
    ∀ (events : List AttrEvent) (quote : Int) (ra : Bool) (v : XString),
      parse_attribute_value_chars quote ra events = .ok v →
      ∃ consumed rest,
        events = consumed ++ (⟨quote, false, false⟩ : AttrEvent) :: rest ∧
        v = consumed.map attr_norm_char := by
  intro events
  induction events with
  | nil =>
    intro quote ra v h
    simp [parse_attribute_value_chars] at h
  | cons e rest ih =>
    intro quote ra v h
    obtain ⟨c, r, ent⟩ := e
    unfold parse_attribute_value_chars at h
    dsimp only at h
    by_cases hent : ent = true
    · rw [if_pos hent] at h
      by_cases hra : ra = true
      · rw [if_neg (by simp [hra])] at h
        by_cases hval : ¬(r = true) ∧ ¬(valid_attribute_value_character c = true)
        · rw [if_pos hval] at h
          exact Except.noConfusion h
        · rw [if_neg hval] at h
          rcases hrec : parse_attribute_value_chars quote ra rest with err | v2
          · rw [hrec] at h
            exact Except.noConfusion h
          · rw [hrec] at h
            obtain ⟨consumed, rest2, hdec, hmap⟩ := ih quote ra v2 hrec
            refine ⟨⟨c, r, ent⟩ :: consumed, rest2, by rw [List.cons_append, ← hdec], ?_⟩
            cases h
            rw [List.map_cons, ← hmap]
      · rw [if_pos hra] at h
        exact Except.noConfusion h
    · rw [if_neg hent] at h
      by_cases hr : r = true
      · rw [if_neg (by simp [hr])] at h
        by_cases hra : ra = true
        · rw [if_neg (by simp [hra])] at h
          rcases hrec : parse_attribute_value_chars quote ra rest with err | v2
          · rw [hrec] at h
            exact Except.noConfusion h
          · rw [hrec] at h
            obtain ⟨consumed, rest2, hdec, hmap⟩ := ih quote ra v2 hrec
            refine ⟨⟨c, r, ent⟩ :: consumed, rest2, by rw [List.cons_append, ← hdec], ?_⟩
            cases h
            rw [List.map_cons, ← hmap]
        · rw [if_pos hra] at h
          exact Except.noConfusion h
      · rw [if_pos hr] at h
        by_cases hq : c = quote
        · rw [if_pos hq] at h
          cases h
          refine ⟨[], rest, ?_, rfl⟩
          have hrf : r = false := by simpa using hr
          have hef : ent = false := by simpa using hent
          rw [hq, hrf, hef]
          rfl
        · rw [if_neg hq] at h
          by_cases hval : valid_attribute_value_character c = true
          · rw [if_neg (by simp [hval])] at h
            rcases hrec : parse_attribute_value_chars quote ra rest with err | v2
            · rw [hrec] at h
              exact Except.noConfusion h
            · rw [hrec] at h
              obtain ⟨consumed, rest2, hdec, hmap⟩ := ih quote ra v2 hrec
              refine ⟨⟨c, r, ent⟩ :: consumed, rest2, by rw [List.cons_append, ← hdec], ?_⟩
              cases h
              rw [List.map_cons, ← hmap]
          · rw [if_pos (by simp [hval])] at h
            exact Except.noConfusion h

theorem collapse_spaces_spec : ∀ (l : XString) (prev : Int),
    collapse_spaces prev l =
      (if prev = SPACE then spec_collapse_runs (l.dropWhile (fun x => x == SPACE))
       else spec_collapse_runs l) := by
  have key : ∀ (n : Nat) (l : XString), l.length ≤ n → ∀ prev : Int,
      collapse_spaces prev l =
        (if prev = SPACE then spec_collapse_runs (l.dropWhile (fun x => x == SPACE))
         else spec_collapse_runs l) := by
    intro n
    induction n with
    | zero =>
      intro l hl prev
      have : l = [] := List.eq_nil_of_length_eq_zero (by omega)
      subst this
      simp [collapse_spaces, spec_collapse_runs, List.dropWhile]
    | succ n ih =>
      intro l hl prev
      cases l with
      | nil => simp [collapse_spaces, spec_collapse_runs, List.dropWhile]
      | cons c rest =>
        simp only [List.length_cons] at hl
        by_cases hprev : prev = SPACE
        · rw [if_pos hprev]
          by_cases hc : c = SPACE
          · unfold collapse_spaces
            rw [if_neg (by simp [hc, hprev])]
            rw [ih rest (by omega) c, if_pos hc]
            rw [List.dropWhile_cons, if_pos (by simp [hc])]
          · unfold collapse_spaces
            rw [if_pos (Or.inl hc)]
            rw [ih rest (by omega) c, if_neg hc]
            rw [List.dropWhile_cons, if_neg (by simp [hc])]
            simp only [spec_collapse_runs]
            rw [if_neg hc]
        · rw [if_neg hprev]
          by_cases hc : c = SPACE
          · unfold collapse_spaces
            rw [if_pos (Or.inr hprev)]
            rw [ih rest (by omega) c, if_pos hc]
            simp only [spec_collapse_runs]
            rw [if_pos hc, hc]
          · unfold collapse_spaces
            rw [if_pos (Or.inl hc)]
            rw [ih rest (by omega) c, if_neg hc]
            simp only [spec_collapse_runs]
            rw [if_neg hc]
  exact fun l prev => key l.length l le_rfl prev

theorem head_dropWhile_false (p : Int → Bool) (l : List Int) (x : Int)
    (h : (l.dropWhile p).head? = some x) : p x = false := by
  induction l with
  | nil => simp [List.dropWhile] at h
  | cons a as ih =>
    rw [List.dropWhile_cons] at h
    by_cases hp : p a
    · rw [if_pos hp] at h
      exact ih h
    · rw [if_neg hp] at h
      simp at h
      subst h
      simpa using hp

theorem spec_trim_no_leading_space (v : XString) :
    (spec_trim v).dropWhile (fun c => c == SPACE) = spec_trim v := by
  cases hB : spec_trim v with
  | nil => simp
  | cons x xs =>
    have hpre : spec_trim v <+: v.dropWhile (fun c => c == SPACE) := by
      unfold spec_trim
      rw [← List.reverse_suffix]
      simp only [List.reverse_reverse]
      exact List.dropWhile_suffix _
    obtain ⟨t, ht⟩ := hpre
    have hh : (v.dropWhile (fun c => c == SPACE)).head? = some x := by
      rw [← ht, hB]
      simp
    have hx := head_dropWhile_false (fun c => c == SPACE) v x hh
    rw [List.dropWhile_cons, if_neg (by simp [hx])]

/-- C6: in the attribute-value gathering loop, every stored character
is the event's character with literal whitespace (not produced by a
character reference) replaced by SPACE — the stored value is exactly
the consumed events mapped through that normalisation, up to the
closing quote (first conjunct).  The non-CDATA normalisation, however,
only partially matches the claim: for a gathered value that is empty or
contains some non-SPACE character it returns the claim's
trim-and-collapse result (second conjunct), but for a non-empty value
consisting entirely of SPACE — where the claim prescribes the empty
normalised value — it instead fails with the uncaught
`std::length_error` from `reserve` on a negative iterator difference
(third conjunct); the fourth conjunct decomposes the successful
non-CDATA runs accordingly. -/
theorem C6_attribute_value_normalisation :
    (∀ (events : List AttrEvent) (quote : Int) (ra : Bool) (v : XString),
      parse_attribute_value_chars quote ra events = .ok v →
      ∃ consumed rest,
        events = consumed ++ (⟨quote, false, false⟩ : AttrEvent) :: rest ∧
        v = consumed.map attr_norm_char) ∧
    (∀ v : XString, ¬(v ≠ [] ∧ v.dropWhile (fun c => c == SPACE) = []) →
      normalise_attribute_value v = .ok (spec_normalised v)) ∧
    (∀ v : XString, v ≠ [] → v.dropWhile (fun c => c == SPACE) = [] →
      normalise_attribute_value v = .error .length_error ∧ spec_normalised v = []) ∧
    (∀ (quote : Int) (ra : Bool) (events : List AttrEvent) (v : XString),
      parse_attribute_value quote ra false events = .ok v →
      ∃ w : XString, parse_attribute_value_chars quote ra events = .ok w ∧
        v = spec_normalised w) := by
  have hnorm : ∀ v : XString, ¬(v ≠ [] ∧ v.dropWhile (fun c => c == SPACE) = []) →
      normalise_attribute_value v = .ok (spec_normalised v) := by
    intro v hv
    unfold normalise_attribute_value spec_normalised
    rw [if_neg hv]
    dsimp only
    rw [collapse_spaces_spec, if_pos rfl]
    rw [show ((v.dropWhile (fun c => c == SPACE)).reverse.dropWhile
        (fun c => c == SPACE)).reverse = spec_trim v from rfl]
    rw [spec_trim_no_leading_space]
  have hallspace : ∀ v : XString, v ≠ [] → v.dropWhile (fun c => c == SPACE) = [] →
      normalise_attribute_value v = .error .length_error ∧ spec_normalised v = [] := by
    intro v h1 h2
    constructor
    · unfold normalise_attribute_value
      rw [if_pos ⟨h1, h2⟩]
    · unfold spec_normalised spec_trim
      rw [h2]
      simp [spec_collapse_runs]
  refine ⟨attr_value_chars_characterization, hnorm, hallspace, ?_⟩
  intro quote ra events v h
  unfold parse_attribute_value at h
  rcases hrec : parse_attribute_value_chars quote ra events with err | w
  · rw [hrec] at h; cases h
  · rw [hrec] at h
    dsimp only at h
    rw [if_neg (by simp)] at h
    refine ⟨w, rfl, ?_⟩
    by_cases hws : ¬(w ≠ [] ∧ w.dropWhile (fun c => c == SPACE) = [])
    · rw [hnorm w hws] at h
      exact (Except.ok.inj h).symm
    · rw [not_not] at hws
      rw [(hallspace w hws.1 hws.2).1] at h
      exact Except.noConfusion h

/-- Witness for C6: the concrete all-SPACE gathered value `[SPACE]`
makes the non-CDATA normalisation fail with the length error while the
claimed trim-and-collapse result is the empty value, by applying the C6
theorem at that input. -/
theorem C6_witness :
    normalise_attribute_value [32] = .error .length_error ∧
    spec_normalised [32] = [] :=
  C6_attribute_value_normalisation.2.2.1 [32] (by decide) (by decide)

theorem general_push_ok (ges : List (XString × GeneralEntityInfo))
    (standalone in_attr : Bool) (name : XString) (s s2 : ParserEntityState)
    (h : parse_general_entity_push ges standalone in_attr name s = .ok s2) :
    name ∉ s.general_entity_names ∧
    s2.general_entity_names = name :: s.general_entity_names ∧
    s2.general_entity_stack = name :: s.general_entity_stack ∧
    s2.parameter_entity_names = s.parameter_entity_names ∧
    s2.parameter_entity_stack = s.parameter_entity_stack := by
  unfold parse_general_entity_push at h
  rcases hlk : lookup ges name with _ | ge
  · rw [hlk] at h
    dsimp only at h
    exact Except.noConfusion h
  · rw [hlk] at h
    dsimp only at h
    split_ifs at h with h1 h2 h3 h4
    cases h
    exact ⟨h3, rfl, rfl, rfl, rfl⟩

theorem parameter_push_ok (pes : List (XString × ParameterEntityInfo))
    (name : XString) (s s2 : ParserEntityState)
    (h : parse_parameter_entity_push pes name s = .ok s2) :
    name ∉ s.parameter_entity_names ∧
    s2.parameter_entity_names = name :: s.parameter_entity_names ∧
    s2.parameter_entity_stack = name :: s.parameter_entity_stack ∧
    s2.general_entity_names = s.general_entity_names ∧
    s2.general_entity_stack = s.general_entity_stack := by
  unfold parse_parameter_entity_push at h
  rcases hlk : lookup pes name with _ | pe
  · rw [hlk] at h
    dsimp only at h
    exact Except.noConfusion h
  · rw [hlk] at h
    dsimp only at h
    split_ifs at h with h1
    cases h
    exact ⟨h1, rfl, rfl, rfl, rfl⟩

theorem erase_instances_eq (l : List XString) (a : XString) :
    @List.erase XString List.instBEq l a =
      @List.erase XString instBEqOfDecidableEq l a := by
  induction l with
  | nil => rfl
  | cons x xs ih =>
    rw [@List.erase_cons XString List.instBEq,
      @List.erase_cons XString instBEqOfDecidableEq, ih]
    by_cases hx : x = a
    · simp [hx]
    · simp [hx]

theorem apply_entity_op_inv (s : ParserEntityState) (op : EntityOp)
    (s2 : ParserEntityState) (hinv : entity_state_inv s)
    (h : apply_entity_op s op = .ok s2) : entity_state_inv s2 := by
  obtain ⟨hgp, hpp, hgn, hpn⟩ := hinv
  cases op with
  | push_general ges standalone in_attr name =>
    obtain ⟨hmem, e1, e2, e3, e4⟩ :=
      general_push_ok ges standalone in_attr name s s2 h
    refine ⟨?_, ?_, ?_, ?_⟩
    · rw [e1, e2]
      exact hgp.cons name
    · rw [e3, e4]
      exact hpp
    · rw [e2]
      exact List.nodup_cons.mpr ⟨fun hc => hmem (hgp.mem_iff.mpr hc), hgn⟩
    · rw [e4]
      exact hpn
  | pop_general =>
    simp only [apply_entity_op] at h
    cases h
    rcases hst : s.general_entity_stack with _ | ⟨top, rest⟩
    · simp only [general_entity_pop, hst]
      exact ⟨hgp, hpp, hgn, hpn⟩
    · simp only [general_entity_pop, hst]
      rw [hst] at hgp hgn
      refine ⟨?_, hpp, ?_, hpn⟩
      · rw [erase_instances_eq]
        have hper := List.Perm.erase top hgp
        rw [@List.erase_cons_head XString instBEqOfDecidableEq _ top rest] at hper
        exact hper
      · exact (List.nodup_cons.mp hgn).2
  | end_general =>
    simp only [apply_entity_op] at h
    cases h
    exact ⟨List.Perm.nil, hpp, List.nodup_nil, hpn⟩
  | push_parameter pes name =>
    obtain ⟨hmem, e1, e2, e3, e4⟩ := parameter_push_ok pes name s s2 h
    refine ⟨?_, ?_, ?_, ?_⟩
    · rw [e3, e4]
      exact hgp
    · rw [e1, e2]
      exact hpp.cons name
    · rw [e4]
      exact hgn
    · rw [e2]
      exact List.nodup_cons.mpr ⟨fun hc => hmem (hpp.mem_iff.mpr hc), hpn⟩
  | pop_parameter =>
    simp only [apply_entity_op] at h
    cases h
    rcases hst : s.parameter_entity_stack with _ | ⟨top, rest⟩
    · simp only [parameter_entity_pop, hst]
      exact ⟨hgp, hpp, hgn, hpn⟩
    · simp only [parameter_entity_pop, hst]
      rw [hst] at hpp hpn
      refine ⟨hgp, ?_, hgn, ?_⟩
      · rw [erase_instances_eq]
        have hper := List.Perm.erase top hpp
        rw [@List.erase_cons_head XString instBEqOfDecidableEq _ top rest] at hper
        exact hper
      · exact (List.nodup_cons.mp hpn).2
  | end_parameter =>
    simp only [apply_entity_op] at h
    cases h
    exact ⟨hgp, List.Perm.nil, hgn, List.nodup_nil⟩

theorem run_entity_ops_inv : ∀ (ops : List EntityOp) (s s2 : ParserEntityState),
    entity_state_inv s → run_entity_ops ops s = .ok s2 → entity_state_inv s2 := by
  intro ops
  induction ops with
  | nil =>
    intro s s2 hinv h
    unfold run_entity_ops at h
    cases h
    exact hinv
  | cons op rest ih =>
    intro s s2 hinv h
    unfold run_entity_ops at h
    rcases hap : apply_entity_op s op with e | s3
    · rw [hap] at h
      exact Except.noConfusion h
    · rw [hap] at h
      exact ih s3 s2 (apply_entity_op_inv s op s3 hinv hap) h

/-- C3: no recursive entity self-reference.  (1)-(2) Pushing a general
or parameter entity whose name is already in the corresponding
active-name set fails with the recursive-entity error (for the general
side, under the earlier checks in the source: the entity is declared,
is not unparsed, and does not trip the standalone/external check).
(3)-(4) Conversely, every successful push happens only when the name is
absent from the active set at that moment, and records the name in both
the set and the stack.  (5) Runs of entity operations started from the
initial state maintain the invariant that each name set holds exactly
the (duplicate-free) names of the active entity streams. -/
theorem C3_no_recursive_entity_expansion :
    (∀ (ges : List (XString × GeneralEntityInfo)) (standalone in_attr : Bool)
        (name : XString) (s : ParserEntityState) (ge : GeneralEntityInfo),
        lookup ges name = some ge →
        ge.is_unparsed = false →
        ¬ ((lookup BUILT_IN_GENERAL_ENTITIES name).isNone = true ∧
            ge.from_external = true ∧ standalone = true) →
        name ∈ s.general_entity_names →
        parse_general_entity_push ges standalone in_attr name s =
          .error .recursive_entity) ∧
    (∀ (pes : List (XString × ParameterEntityInfo)) (name : XString)
        (s : ParserEntityState) (pe : ParameterEntityInfo),
        lookup pes name = some pe →
        name ∈ s.parameter_entity_names →
        parse_parameter_entity_push pes name s = .error .recursive_entity) ∧
    (∀ (ges : List (XString × GeneralEntityInfo)) (standalone in_attr : Bool)
        (name : XString) (s s2 : ParserEntityState),
        parse_general_entity_push ges standalone in_attr name s = .ok s2 →
        name ∉ s.general_entity_names ∧
        s2.general_entity_names = name :: s.general_entity_names ∧
        s2.general_entity_stack = name :: s.general_entity_stack) ∧
    (∀ (pes : List (XString × ParameterEntityInfo)) (name : XString)
        (s s2 : ParserEntityState),
        parse_parameter_entity_push pes name s = .ok s2 →
        name ∉ s.parameter_entity_names ∧
        s2.parameter_entity_names = name :: s.parameter_entity_names ∧
        s2.parameter_entity_stack = name :: s.parameter_entity_stack) ∧
    (∀ (ops : List EntityOp) (s2 : ParserEntityState),
        run_entity_ops ops {} = .ok s2 → entity_state_inv s2) := by
  refine ⟨?_, ?_, ?_, ?_, ?_⟩
  · intro ges standalone in_attr name s ge hlk hunp hext hmem
    unfold parse_general_entity_push
    rw [hlk]
    dsimp only
    rw [if_neg (by simp [hunp])]
    rw [if_neg hext]
    rw [if_pos hmem]
  · intro pes name s pe hlk hmem
    unfold parse_parameter_entity_push
    rw [hlk]
    dsimp only
    rw [if_pos hmem]
  · intro ges standalone in_attr name s s2 h
    obtain ⟨hmem, e1, e2, _, _⟩ := general_push_ok ges standalone in_attr name s s2 h
    exact ⟨hmem, e1, e2⟩
  · intro pes name s s2 h
    obtain ⟨hmem, e1, e2, _, _⟩ := parameter_push_ok pes name s s2 h
    exact ⟨hmem, e1, e2⟩
  · intro ops s2 h
    exact run_entity_ops_inv ops {} s2
      ⟨List.Perm.nil, List.Perm.nil, List.nodup_nil, List.nodup_nil⟩ h

/-- Witness for C3: pushing the already-active internal general entity
`a` fails with the recursive-entity error, and likewise for the
parameter entity `p`, by applying the C3 theorem at those inputs. -/
theorem C3_witness :
    parse_general_entity_push [([97], {})] false false [97]
      { general_entity_names := [[97]], general_entity_stack := [[97]] } =
      .error .recursive_entity ∧
    parse_parameter_entity_push [([112], {})] [112]
      { parameter_entity_names := [[112]], parameter_entity_stack := [[112]] } =
      .error .recursive_entity :=
  ⟨C3_no_recursive_entity_expansion.1 [([97], {})] false false [97]
      { general_entity_names := [[97]], general_entity_stack := [[97]] } {}
      (by rfl) (by rfl) (by simp) (by simp),
    C3_no_recursive_entity_expansion.2.1 [([112], {})] [112]
      { parameter_entity_names := [[112]], parameter_entity_stack := [[112]] } {}
      (by rfl) (by simp)⟩

theorem match_name_loop_bounds (children : List XString) (nm : XString) (max_count : Nat) :
    ∀ (n count pos : Nat), children.length - pos ≤ n → pos ≤ children.length →
    pos ≤ (match_name_loop children nm max_count count pos).2 ∧
    (match_name_loop children nm max_count count pos).2 ≤ children.length := by
  intro n
  induction n with
  | zero =>
    intro count pos hn hp
    rw [match_name_loop]
    rw [dif_neg (fun hcon => absurd hcon.2.1 (by omega))]
    exact ⟨le_refl pos, hp⟩
  | succ n ih =>
    intro count pos hn hp
    rw [match_name_loop]
    by_cases hc : count < max_count ∧ pos < children.length ∧ children.getD pos [] = nm
    · rw [dif_pos hc]
      obtain ⟨a, b⟩ := ih (count + 1) (pos + 1) (by omega) (by omega)
      exact ⟨by omega, b⟩
    · rw [dif_neg hc]
      exact ⟨le_refl pos, hp⟩

theorem match_parts_sequence_total (children : List XString) :
    ∀ (parts : List ElementContentModel),
    (∀ p ∈ parts, ∀ pos, pos ≤ children.length →
      ∃ b pos2, valid_element_content_helper children p pos = some (b, pos2) ∧
        pos ≤ pos2 ∧ pos2 ≤ children.length) →
    ∀ pos, pos ≤ children.length →
      ∃ b pos2, match_parts_sequence children parts pos = some (b, pos2) ∧
        pos ≤ pos2 ∧ pos2 ≤ children.length := by
  intro parts
  induction parts with
  | nil =>
    intro _ pos hp
    exact ⟨true, pos, by rw [match_parts_sequence], le_refl pos, hp⟩
  | cons p rest ih =>
    intro hpart pos hp
    obtain ⟨b, pos2, heq, h1, h2⟩ := hpart p (by simp) pos hp
    cases b
    · exact ⟨false, pos2, by rw [match_parts_sequence, heq], h1, h2⟩
    · obtain ⟨b2, pos3, heq2, h3, h4⟩ :=
        ih (fun q hq => hpart q (by simp [hq])) pos2 h2
      refine ⟨b2, pos3, ?_, by omega, h4⟩
      rw [match_parts_sequence, heq]
      exact heq2

theorem match_parts_choice_total (children : List XString) :
    ∀ (parts : List ElementContentModel),
    (∀ p ∈ parts, ∀ pos, pos ≤ children.length →
      ∃ b pos2, valid_element_content_helper children p pos = some (b, pos2) ∧
        pos ≤ pos2 ∧ pos2 ≤ children.length) →
    ∀ pos, pos ≤ children.length →
      ∃ b pos2, match_parts_choice children parts pos = some (b, pos2) ∧
        pos ≤ pos2 ∧ pos2 ≤ children.length := by
  intro parts
  induction parts with
  | nil =>
    intro _ pos hp
    exact ⟨false, pos, by rw [match_parts_choice], le_refl pos, hp⟩
  | cons p rest ih =>
    intro hpart pos hp
    obtain ⟨b, pos2, heq, h1, h2⟩ := hpart p (by simp) pos hp
    cases b
    · obtain ⟨b2, pos3, heq2, h3, h4⟩ :=
        ih (fun q hq => hpart q (by simp [hq])) pos2 h2
      refine ⟨b2, pos3, ?_, by omega, h4⟩
      rw [match_parts_choice, heq]
      exact heq2
    · exact ⟨true, pos2, by rw [match_parts_choice, heq], h1, h2⟩

theorem match_parts_total (children : List XString) (is_seq : Bool)
    (parts : List ElementContentModel)
    (hpart : ∀ p ∈ parts, ∀ pos, pos ≤ children.length →
      ∃ b pos2, valid_element_content_helper children p pos = some (b, pos2) ∧
        pos ≤ pos2 ∧ pos2 ≤ children.length) :
    ∀ pos, pos ≤ children.length →
      ∃ b pos2, match_parts children is_seq parts pos = some (b, pos2) ∧
        pos ≤ pos2 ∧ pos2 ≤ children.length := by
  intro pos hp
  cases is_seq
  · obtain ⟨b, pos2, heq, h1, h2⟩ := match_parts_choice_total children parts hpart pos hp
    exact ⟨b, pos2, by rw [match_parts, if_neg (by simp), heq], h1, h2⟩
  · obtain ⟨b, pos2, heq, h1, h2⟩ := match_parts_sequence_total children parts hpart pos hp
    exact ⟨b, pos2, by rw [match_parts, if_pos (by simp), heq], h1, h2⟩

theorem content_group_loop_total (children : List XString) (is_seq : Bool)
    (parts : List ElementContentModel) (max_count : Nat)
    (hmp : ∀ pos, pos ≤ children.length →
      ∃ b pos2, match_parts children is_seq parts pos = some (b, pos2) ∧
        pos ≤ pos2 ∧ pos2 ≤ children.length) :
    ∀ (fuel count pos : Nat), pos ≤ children.length →
      children.length + 1 - pos ≤ fuel →
      ∃ c pos2,
        content_group_loop children is_seq parts max_count count pos pos fuel =
          some (c, pos2) ∧ pos ≤ pos2 ∧ pos2 ≤ children.length := by
  intro fuel
  induction fuel with
  | zero =>
    intro count pos hp hf
    omega
  | succ fuel ih =>
    intro count pos hp hf
    rw [content_group_loop]
    by_cases hmax : max_count ≤ count
    · rw [if_pos hmax]
      exact ⟨count, pos, rfl, le_refl pos, hp⟩
    · rw [if_neg hmax]
      obtain ⟨b, pos2, heq, h1, h2⟩ := hmp pos hp
      rw [heq]
      cases b
      · exact ⟨count, pos2, rfl, h1, h2⟩
      · dsimp only
        by_cases hprog : pos2 = pos
        · rw [if_pos hprog]
          exact ⟨INT_MAX, pos2, rfl, h1, h2⟩
        · rw [if_neg hprog, if_neg (by omega : ¬(fuel + 1 = 0))]
          simp only [Nat.add_sub_cancel]
          obtain ⟨c, pos3, heq2, h3, h4⟩ := ih (count + 1) pos2 h2 (by omega)
          exact ⟨c, pos3, heq2, by omega, h4⟩

theorem helper_total (children : List XString) :
    ∀ (N : Nat) (ecm : ElementContentModel), sizeOf ecm ≤ N →
    ∀ pos, pos ≤ children.length →
      ∃ b pos2, valid_element_content_helper children ecm pos = some (b, pos2) ∧
        pos ≤ pos2 ∧ pos2 ≤ children.length := by
  intro N
  induction N with
  | zero =>
    intro ecm h
    cases ecm <;> simp at h
  | succ N ih =>
    intro ecm hsz pos hpos
    match ecm with
    | .name cnt nm =>
      rw [valid_element_content_helper]
      obtain ⟨a, b⟩ := match_name_loop_bounds children nm
        (ELEMENT_CONTENT_COUNT_MAXIMA cnt) (children.length - pos) 0 pos
        (le_refl _) hpos
      exact ⟨_, _, rfl, a, b⟩
    | .group cnt is_seq parts =>
      have hpart : ∀ p ∈ parts, ∀ pos, pos ≤ children.length →
          ∃ b pos2, valid_element_content_helper children p pos = some (b, pos2) ∧
            pos ≤ pos2 ∧ pos2 ≤ children.length := by
        intro p hp
        apply ih p
        have hlt := List.sizeOf_lt_of_mem hp
        simp only [ElementContentModel.group.sizeOf_spec] at hsz
        omega
      obtain ⟨c, pos2, heq, hle1, hle2⟩ :=
        content_group_loop_total children is_seq parts
          (ELEMENT_CONTENT_COUNT_MAXIMA cnt)
          (match_parts_total children is_seq parts hpart)
          (children.length + 1) 0 pos hpos (by omega)
      rw [valid_element_content_helper, heq]
      exact ⟨_, pos2, rfl, hle1, hle2⟩

theorem group_no_progress (children : List XString) (cnt : ElementContentCount)
    (is_seq : Bool) (parts : List ElementContentModel) (pos : Nat)
    (h : match_parts children is_seq parts pos = some (true, pos)) :
    valid_element_content_helper children (.group cnt is_seq parts) pos =
      some (decide (ELEMENT_CONTENT_COUNT_MAXIMA cnt = INT_MAX), pos) := by
  cases cnt <;>
  · rw [valid_element_content_helper, content_group_loop,
      if_neg (by decide), h]
    dsimp only
    rw [if_pos rfl]
    rfl

/-- C1: the greedy left-to-right element-content matcher terminates:
started anywhere inside the child list it always returns a verdict (the
iteration budget in the embedding is never exhausted) with a final
cursor that moves only forward and never past the end.  When one full
group iteration consumes no children, the iteration count is set to
`INT_MAX` and the loop stops without consuming further input; the
resulting count satisfies the group bounds exactly when the group
maximum is itself `INT_MAX` (occurrence `*` or `+`) — for occurrence
none or `?` (maximum 1) the `count <= max_count` check fails and the
group is reported as not matching. -/
theorem C1_content_model_termination :
    (∀ (children : List XString) (ecm : ElementContentModel) (pos : Nat),
        pos ≤ children.length →
        ∃ b pos2, valid_element_content_helper children ecm pos = some (b, pos2) ∧
          pos ≤ pos2 ∧ pos2 ≤ children.length) ∧
    (∀ (children : List XString) (cnt : ElementContentCount) (is_seq : Bool)
        (parts : List ElementContentModel) (pos : Nat),
        match_parts children is_seq parts pos = some (true, pos) →
        valid_element_content_helper children (.group cnt is_seq parts) pos =
          some (decide (ELEMENT_CONTENT_COUNT_MAXIMA cnt = INT_MAX), pos)) := by
  constructor
  · intro children ecm pos hpos
    exact helper_total children (sizeOf ecm) ecm (le_refl _) pos hpos
  · intro children cnt is_seq parts pos h
    exact group_no_progress children cnt is_seq parts pos h

/-- Counterexample for C1 as frozen: for the content model `(a?)` with
group occurrence none (maximum 1), the empty child list produces a full
group iteration with no progress; the count becomes `INT_MAX`, which
does NOT satisfy the group maximum of 1, so the group mismatches —
whereas the same parts under occurrence `*` match.  The claim's
"thereby satisfying the group maximum occurrence bound" only holds for
`*` and `+` groups. -/
theorem C1_counterexample :
    match_parts [] true [.name .zero_or_one [97]] 0 = some (true, 0) ∧
    valid_element_content_helper []
      (.group .one true [.name .zero_or_one [97]]) 0 = some (false, 0) ∧
    valid_element_content_helper []
      (.group .zero_or_more true [.name .zero_or_one [97]]) 0 = some (true, 0) := by
  have hname : valid_element_content_helper [] (.name .zero_or_one [97]) 0 =
      some (true, 0) := by
    rw [valid_element_content_helper, match_name_loop, dif_neg (by simp)]
    rfl
  have hmp : match_parts [] true [.name .zero_or_one [97]] 0 = some (true, 0) := by
    rw [match_parts, if_pos (by simp), match_parts_sequence, hname]
    dsimp only
    rw [match_parts_sequence]
  refine ⟨hmp, ?_, ?_⟩
  · rw [valid_element_content_helper, content_group_loop, if_neg (by decide), hmp]
    dsimp only
    rw [if_pos rfl]
    rfl
  · rw [valid_element_content_helper, content_group_loop, if_neg (by decide), hmp]
    dsimp only
    rw [if_pos rfl]
    rfl

/-- Witness for C1: the matcher applied to the single child `a` under
the model `a` (occurrence none) returns a verdict with an in-range
cursor, by applying the C1 theorem at that input. -/
theorem C1_witness :
    ∃ b pos2,
      valid_element_content_helper [[97]] (.name .one [97]) 0 = some (b, pos2) ∧
      0 ≤ pos2 ∧ pos2 ≤ ([[97]] : List XString).length :=
  C1_content_model_termination.1 [[97]] (.name .one [97]) 0 (by decide)

theorem check_tokens_spec (ok_token : XString → Bool) :
    ∀ (v current : XString),
      check_space_separated_tokens ok_token current v = true →
      ∀ t ∈ split_spaces_from current v, ok_token t = true := by
  intro v
  induction v with
  | nil =>
    intro current h t ht
    rw [check_space_separated_tokens] at h
    rw [split_spaces_from] at ht
    simp at ht
    rw [ht]
    exact h
  | cons c rest ih =>
    intro current h t ht
    rw [split_spaces_from] at ht
    rw [check_space_separated_tokens] at h
    by_cases hc : c = SPACE
    · rw [if_pos hc] at h ht
      rw [Bool.and_eq_true] at h
      rcases List.mem_cons.mp ht with h1 | h2
      · rw [h1]
        exact h.1
      · exact ih [] h.2 t h2
    · rw [if_neg hc] at h ht
      exact ih (current ++ [c]) h t ht

theorem validate_element_attributes_spec
    (dtd : DoctypeDeclaration) (ids : List XString)
    (attributes : List (XString × XString)) :
    ∀ (ald : AttributeListDeclaration) (registered r : Nat),
      validate_element_attributes dtd ids attributes ald registered = .ok r →
      ∀ an ad, (an, ad) ∈ ald → ∀ v, lookup attributes an = some v →
        (ad.type = .idref → ids.contains v = true) ∧
        (ad.type = .idrefs →
          check_space_separated_tokens (fun t => ids.contains t) [] v = true) := by
  intro ald
  induction ald with
  | nil =>
    intro registered r h an ad had
    simp at had
  | cons pair rest ih =>
    obtain ⟨an0, ad0⟩ := pair
    intro registered r h an ad had v hv
    rw [validate_element_attributes] at h
    rcases hlk : lookup attributes an0 with _ | value
    · rw [hlk] at h
      dsimp only at h
      split_ifs at h with h1
      rcases List.mem_cons.mp had with hh | hh
      · injection hh with he1 he2
        rw [he1, hlk] at hv
        exact Option.noConfusion hv
      · exact ih registered r h an ad hh v hv
    · rw [hlk] at h
      dsimp only at h
      rcases hb : (if ad0.presence = .fixed then
          (if value ≠ ad0.default_value then
            (Except.error .fixed_attribute_mismatch : Except Err Unit)
          else .ok ())
        else validate_default_attribute_value ad0 value) with e | u
      · rw [hb] at h
        dsimp only at h
        exact Except.noConfusion h
      · rw [hb] at h
        dsimp only at h
        split_ifs at h with hcr
        rcases List.mem_cons.mp had with hh | hh
        · injection hh with he1 he2
          subst he1
          subst he2
          rw [hlk] at hv
          have hvv := Option.some.inj hv
          subst hvv
          have hcross := hcr
          constructor
          · intro hty
            rw [hty] at hcross
            exact hcross
          · intro hty
            rw [hty] at hcross
            exact hcross
        · exact ih (registered + 1) r h an ad hh v hv

theorem mem_elements_of_list (el : Element) :
    ∀ (es : List Element),
      el ∈ elements_of_list es ↔ ∃ c ∈ es, el ∈ elements_of c := by
  intro es
  induction es with
  | nil =>
    rw [elements_of_list]
    simp
  | cons c rest ih =>
    rw [elements_of_list, List.mem_append, ih]
    constructor
    · rintro (h | ⟨d, hd, hm⟩)
      · exact ⟨c, by simp, h⟩
      · exact ⟨d, by simp [hd], hm⟩
    · rintro ⟨d, hd, hm⟩
      rcases List.mem_cons.mp hd with hh | hh
      · subst hh
        exact Or.inl hm
      · exact Or.inr ⟨d, hh, hm⟩

theorem validate_attributes_list_ok (dtd : DoctypeDeclaration) (ids : List XString) :
    ∀ (es : List Element), validate_attributes_list dtd ids es = .ok () →
      ∀ e ∈ es, validate_attributes dtd ids e = .ok () := by
  intro es
  induction es with
  | nil =>
    intro _ e he
    simp at he
  | cons e0 rest ih =>
    intro h e he
    rw [validate_attributes_list] at h
    rcases hv : validate_attributes dtd ids e0 with err | u
    · rw [hv] at h
      dsimp only at h
      exact Except.noConfusion h
    · rw [hv] at h
      dsimp only at h
      rcases List.mem_cons.mp he with hh | hh
      · subst hh
        cases u
        exact hv
      · exact ih h e hh

theorem validate_attributes_tree (dtd : DoctypeDeclaration) (ids : List XString) :
    ∀ (n : Nat) (e : Element), sizeOf e ≤ n →
      validate_attributes dtd ids e = .ok () →
      ∀ el ∈ elements_of e, ∀ ald,
        lookup dtd.attribute_list_declarations el.name = some ald →
        ∃ r, validate_element_attributes dtd ids el.attributes ald 0 = .ok r := by
  intro n
  induction n with
  | zero =>
    intro e h
    cases e
    simp at h
  | succ n ih =>
    intro e hsz h el hel ald hald
    obtain ⟨name, attrs, children⟩ := e
    have hch : ∀ c ∈ children, sizeOf c ≤ n := by
      intro c hc
      have := List.sizeOf_lt_of_mem hc
      simp [Element.mk.sizeOf_spec] at hsz
      omega
    rw [validate_attributes] at h
    rw [elements_of] at hel
    rcases hlk : lookup dtd.attribute_list_declarations name with _ | ald0
    · rw [hlk] at h
      dsimp only at h
      split_ifs at h with h1
      rcases List.mem_cons.mp hel with hh | hh
      · subst hh
        rw [Element.name] at hald
        rw [hlk] at hald
        exact Option.noConfusion hald
      · obtain ⟨c, hc, hm⟩ := (mem_elements_of_list el children).mp hh
        exact ih c (hch c hc) (validate_attributes_list_ok dtd ids children h c hc) el hm ald hald
    · rw [hlk] at h
      dsimp only at h
      rcases hvea : validate_element_attributes dtd ids attrs ald0 0 with err | reg
      · rw [hvea] at h
        dsimp only at h
        exact Except.noConfusion h
      · rw [hvea] at h
        dsimp only at h
        split_ifs at h with h1
        rcases List.mem_cons.mp hel with hh | hh
        · subst hh
          rw [Element.name] at hald
          rw [hlk] at hald
          have hax := Option.some.inj hald
          subst hax
          exact ⟨reg, hvea⟩
        · obtain ⟨c, hc, hm⟩ := (mem_elements_of_list el children).mp hh
          exact ih c (hch c hc) (validate_attributes_list_ok dtd ids children h c hc) el hm ald hald

theorem ids_list_spec (dtd : DoctypeDeclaration) :
    ∀ (es : List Element),
    (∀ e ∈ es, ∀ ids,
      (((gather_ids dtd e).Nodup ∧ ∀ x ∈ gather_ids dtd e, x ∉ ids) →
        parse_and_validate_ids dtd e ids = .ok ((gather_ids dtd e).reverse ++ ids)) ∧
      (¬((gather_ids dtd e).Nodup ∧ ∀ x ∈ gather_ids dtd e, x ∉ ids) →
        parse_and_validate_ids dtd e ids = .error .repeated_id_value)) →
    ∀ ids,
      (((gather_ids_list dtd es).Nodup ∧ ∀ x ∈ gather_ids_list dtd es, x ∉ ids) →
        parse_and_validate_ids_list dtd es ids =
          .ok ((gather_ids_list dtd es).reverse ++ ids)) ∧
      (¬((gather_ids_list dtd es).Nodup ∧ ∀ x ∈ gather_ids_list dtd es, x ∉ ids) →
        parse_and_validate_ids_list dtd es ids = .error .repeated_id_value) := by
  intro es
  induction es with
  | nil =>
    intro _ ids
    constructor
    · intro _
      rw [parse_and_validate_ids_list, gather_ids_list]
      rfl
    · intro hn
      refine absurd ⟨?_, ?_⟩ hn
      · rw [gather_ids_list]
        exact List.nodup_nil
      · rw [gather_ids_list]
        simp
  | cons e rest ih =>
    intro hall ids
    have he := hall e (by simp)
    have ihr := ih (fun q hq => hall q (by simp [hq]))
    rw [gather_ids_list]
    constructor
    · rintro ⟨hnd, hfresh⟩
      rw [List.nodup_append] at hnd
      obtain ⟨hnd1, hnd2, hdisj⟩ := hnd
      rw [parse_and_validate_ids_list]
      rw [(he ids).1 ⟨hnd1, fun x hx => hfresh x (List.mem_append.mpr (Or.inl hx))⟩]
      dsimp only
      have hfr : ∀ x ∈ gather_ids_list dtd rest, x ∉ (gather_ids dtd e).reverse ++ ids := by
        intro x hx hmem
        rcases List.mem_append.mp hmem with hm | hm
        · exact hdisj (List.mem_reverse.mp hm) hx
        · exact hfresh x (List.mem_append.mpr (Or.inr hx)) hm
      rw [(ihr ((gather_ids dtd e).reverse ++ ids)).1 ⟨hnd2, hfr⟩]
      rw [List.reverse_append, List.append_assoc]
    · intro hn
      by_cases hce : (gather_ids dtd e).Nodup ∧ ∀ x ∈ gather_ids dtd e, x ∉ ids
      · rw [parse_and_validate_ids_list, (he ids).1 hce]
        dsimp only
        apply (ihr ((gather_ids dtd e).reverse ++ ids)).2
        rintro ⟨hnd2, hfr⟩
        apply hn
        constructor
        · rw [List.nodup_append]
          refine ⟨hce.1, hnd2, ?_⟩
          intro a ha har
          exact hfr a har (List.mem_append.mpr (Or.inl (List.mem_reverse.mpr ha)))
        · intro x hx hxm
          rcases List.mem_append.mp hx with hm | hm
          · exact hce.2 x hm hxm
          · exact hfr x hm (List.mem_append.mpr (Or.inr hxm))
      · rw [parse_and_validate_ids_list, (he ids).2 hce]

theorem ids_elem_spec (dtd : DoctypeDeclaration) :
    ∀ (n : Nat) (e : Element), sizeOf e ≤ n → ∀ ids,
      (((gather_ids dtd e).Nodup ∧ ∀ x ∈ gather_ids dtd e, x ∉ ids) →
        parse_and_validate_ids dtd e ids = .ok ((gather_ids dtd e).reverse ++ ids)) ∧
      (¬((gather_ids dtd e).Nodup ∧ ∀ x ∈ gather_ids dtd e, x ∉ ids) →
        parse_and_validate_ids dtd e ids = .error .repeated_id_value) := by
  intro n
  induction n with
  | zero =>
    intro e h
    cases e
    simp at h
  | succ n ih =>
    intro e hsz ids
    obtain ⟨name, attrs, children⟩ := e
    have hche : ∀ c ∈ children, ∀ ids2,
        (((gather_ids dtd c).Nodup ∧ ∀ x ∈ gather_ids dtd c, x ∉ ids2) →
          parse_and_validate_ids dtd c ids2 = .ok ((gather_ids dtd c).reverse ++ ids2)) ∧
        (¬((gather_ids dtd c).Nodup ∧ ∀ x ∈ gather_ids dtd c, x ∉ ids2) →
          parse_and_validate_ids dtd c ids2 = .error .repeated_id_value) := by
      intro c hc
      apply ih c
      have := List.sizeOf_lt_of_mem hc
      simp [Element.mk.sizeOf_spec] at hsz
      omega
    have hlist := ids_list_spec dtd children hche
    rcases hlk : lookup dtd.attribute_list_declarations name with _ | ald
    · simp only [parse_and_validate_ids, gather_ids, element_own_ids, hlk,
        List.nil_append]
      exact hlist ids
    · rcases hfind : find_id_declaration ald with _ | pair
      · simp only [parse_and_validate_ids, gather_ids, element_own_ids, hlk, hfind,
          List.nil_append]
        exact hlist ids
      · obtain ⟨an, adx⟩ := pair
        rcases hattr : lookup attrs an with _ | id
        · simp only [parse_and_validate_ids, gather_ids, element_own_ids, hlk, hfind,
            hattr, List.nil_append]
          exact hlist ids
        · simp only [parse_and_validate_ids, gather_ids, element_own_ids, hlk, hfind,
            hattr, List.singleton_append]
          constructor
          · rintro ⟨hnd, hfresh⟩
            have hni : ¬ ids.contains id = true := by
              intro hc
              exact hfresh id (by simp) (by simpa using hc)
            rw [if_neg hni]
            dsimp only
            have hfr : ∀ x ∈ gather_ids_list dtd children, x ∉ id :: ids := by
              intro x hx hmem
              rcases List.mem_cons.mp hmem with hm | hm
              · exact (List.nodup_cons.mp hnd).1 (hm ▸ hx)
              · exact hfresh x (by simp [hx]) hm
            rw [(hlist (id :: ids)).1 ⟨(List.nodup_cons.mp hnd).2, hfr⟩]
            rw [List.reverse_cons, List.append_assoc]
            rfl
          · intro hn
            by_cases hc : ids.contains id = true
            · rw [if_pos hc]
            · rw [if_neg hc]
              dsimp only
              apply (hlist (id :: ids)).2
              rintro ⟨hnd2, hfr⟩
              apply hn
              constructor
              · rw [List.nodup_cons]
                exact ⟨fun hm => hfr id hm (by simp), hnd2⟩
              · intro x hx hxm
                rcases List.mem_cons.mp hx with hm | hm
                · subst hm
                  exact hc (by simpa using hxm)
                · exact hfr x hm (by simp [hxm])

/-- C2: after the first ID-collecting pass over the whole document tree,
(1) the pass succeeds exactly when the ID-typed attribute values of the
document are pairwise distinct (a repeated value raises the error), and
(2) when the whole attribute pass succeeds, the collected set holds
exactly the document ID values, they are pairwise distinct, and for
every element, every declared IDREF attribute value it carries is some
document ID and every space-separated token of a declared IDREFS value
it carries is some document ID (an unmatched token having raised an
error instead). -/
theorem C2_id_uniqueness_and_reference_resolution :
    (∀ (dtd : DoctypeDeclaration) (root : Element),
        (∃ ids, parse_and_validate_ids dtd root [] = .ok ids) ↔
          (gather_ids dtd root).Nodup) ∧
    (∀ (dtd : DoctypeDeclaration) (root : Element) (ids : List XString),
        validate_attributes_pass dtd root = .ok ids →
          (∀ x, x ∈ ids ↔ x ∈ gather_ids dtd root) ∧
          (gather_ids dtd root).Nodup ∧
          (∀ el ∈ elements_of root, ∀ ald,
            lookup dtd.attribute_list_declarations el.name = some ald →
            ∀ an ad, (an, ad) ∈ ald → ∀ v, lookup el.attributes an = some v →
              (ad.type = .idref → v ∈ ids) ∧
              (ad.type = .idrefs → ∀ t ∈ split_spaces v, t ∈ ids))) := by
  constructor
  · intro dtd root
    constructor
    · rintro ⟨ids, hok⟩
      by_contra hnd
      have herr := (ids_elem_spec dtd (sizeOf root) root (le_refl _) []).2
        (fun hcon => hnd hcon.1)
      rw [herr] at hok
      exact Except.noConfusion hok
    · intro hnd
      exact ⟨_, (ids_elem_spec dtd (sizeOf root) root (le_refl _) []).1
        ⟨hnd, by simp⟩⟩
  · intro dtd root ids hpass
    rw [validate_attributes_pass] at hpass
    rcases hids : parse_and_validate_ids dtd root [] with e | ids0
    · rw [hids] at hpass
      dsimp only at hpass
      exact Except.noConfusion hpass
    · rw [hids] at hpass
      dsimp only at hpass
      rcases hva : validate_attributes dtd ids0 root with e | u
      · rw [hva] at hpass
        dsimp only at hpass
        exact Except.noConfusion hpass
      · rw [hva] at hpass
        dsimp only at hpass
        cases hpass
        cases u
        have hnd : (gather_ids dtd root).Nodup := by
          by_contra hnd
          have herr := (ids_elem_spec dtd (sizeOf root) root (le_refl _) []).2
            (fun hcon => hnd hcon.1)
          rw [herr] at hids
          exact Except.noConfusion hids
        have hval : ids = (gather_ids dtd root).reverse := by
          have hok := (ids_elem_spec dtd (sizeOf root) root (le_refl _) []).1
            ⟨hnd, by simp⟩
          rw [hok] at hids
          have hinj := Except.ok.inj hids
          rw [List.append_nil] at hinj
          exact hinj.symm
        refine ⟨?_, hnd, ?_⟩
        · intro x
          rw [hval, List.mem_reverse]
        · intro el hel ald hald an ad had v hv
          obtain ⟨r, hr⟩ := validate_attributes_tree dtd ids (sizeOf root) root
            (le_refl _) hva el hel ald hald
          have hspec := validate_element_attributes_spec dtd ids el.attributes
            ald 0 r hr an ad had v hv
          constructor
          · intro hty
            simpa using hspec.1 hty
          · intro hty t ht
            have hcheck := hspec.2 hty
            have hth : t ∈ split_spaces_from [] v := by
              rw [split_spaces] at ht
              exact ht
            simpa using check_tokens_spec (fun t => ids.contains t) v [] hcheck t hth

/-- Witness for C2: a document whose root element `a` carries the
ID-typed attribute `i` with value `v` passes the ID-collecting pass, by
applying the C2 theorem at that input. -/
theorem C2_witness :
    ∃ ids, parse_and_validate_ids
      { attribute_list_declarations := [([97], [([105], { type := AttributeType.id })])] }
      (.mk [97] [([105], [118])] []) [] = .ok ids :=
  (C2_id_uniqueness_and_reference_resolution.1
      { attribute_list_declarations := [([97], [([105], { type := AttributeType.id })])] }
      (.mk [97] [([105], [118])] [])).mpr
    (by
      have hg : gather_ids
          { attribute_list_declarations := [([97], [([105], { type := AttributeType.id })])] }
          (.mk [97] [([105], [118])] []) = [[118]] := by
        simp [gather_ids, gather_ids_list, element_own_ids, find_id_declaration,
          lookup]
      rw [hg]
      simp)

end xml
